import Mathlib

/-!
Verification of the PDF writer core (`src/writer.rs` and `src/content.rs` of the
lopdf fork).  The writer serializes an in-memory object graph into PDF byte
syntax while building a cross-reference index over the emitted objects and
recording the byte span of every value stored under a dictionary key
`Contents`.

Bytes are modelled as `Nat` (each morally `< 256`); byte strings are `List Nat`.
The output sink (`CountingWrite`) is modelled by explicit state passing: a
state carries the bytes emitted so far (`out`), the running byte counter
(`bytes_written`, field `count`), and the sequence of individual `write_all`
calls (`writes`, used to model I/O failure).  Ghost logs (`clog`, `xlog`)
record, without influencing any behaviour, the history of insertions into the
Contents byte-map and into the cross-reference index, so that theorems can
speak about "the entry received" at each point of the run.

The `Object`, `Dictionary`, `Document` and `Xref` data types and their basic
operations live outside the two source files (they are declared in other parts
of the repository); they are modelled from the spec, §3: `Object` is the tagged
union given there, a `Dictionary` is an ordered association list whose
insertion order is preserved on output, a `Document` is an `ObjectId → Object`
table plus trailer/version/max-id, and an `Xref` maps numeric ids to entries
with `insert` replacing any previous entry for the same id.
-/

/-- Bytes of an ASCII string literal, as natural numbers. -/
def ascii (s : String) : List Nat := s.data.map Char.toNat

/-- Decimal digit emission with explicit fuel (structural recursion so that the
kernel can evaluate it).  `decGo fuel n` is the decimal text of `n` for any
`fuel ≥ n`, and `[]` for `n = 0`. -/
def decGo : Nat → Nat → List Nat
  | 0, _ => []
  | fuel+1, n => if n = 0 then [] else decGo fuel (n / 10) ++ [48 + n % 10]

/-- Decimal rendering of a natural number, as the Rust `Display` impls for the
unsigned integer types produce it (used for ids, generations, counts and
offsets). -/
def decRepr (n : Nat) : List Nat := if n = 0 then [48] else decGo n n

/-- Decimal rendering of a signed integer, as `itoa` formats an `i64`. -/
def intRepr (i : Int) : List Nat :=
  if i < 0 then 45 :: decRepr i.natAbs else decRepr i.toNat

/-- Uppercase hexadecimal digit of a value `< 16`, as Rust's `{:02X}` uses. -/
def uhexDigit (v : Nat) : Nat := if v < 10 then 48 + v else 55 + v

/-- Left-pad a digit string with `'0'` to width `w` (Rust's `{:>0w}`). -/
def padLeft0 (w : Nat) (ds : List Nat) : List Nat :=
  List.replicate (w - ds.length) 48 ++ ds

/-- Half-open slice `l[a..b]` of a list. -/
def byteSlice (a b : Nat) (l : List α) : List α := (l.drop a).take (b - a)

/-- Pair every element with its index, starting from `i`. -/
def idxFrom (i : Nat) : List α → List (Nat × α)
  | [] => []
  | x :: rest => (i, x) :: idxFrom (i + 1) rest

/-- Modelled from the spec: the two string formats of §3 (the missing
`StringFormat` declaration). -/
inductive StrFormat where
  | literal
  | hexadecimal
deriving DecidableEq

/-- Modelled from the spec: the `Object` tagged union of §3 (the declaration of
`Object` is outside the two source files).  A `Real` carries its host-formatted
decimal text, since the spec pins down no formatting rule for floats (§9); a
`Stream` carries its dictionary and its already-encoded content bytes. -/
inductive Obj where
  | null
  | boolean (b : Bool)
  | integer (i : Int)
  | real (txt : List Nat)
  | name (n : List Nat)
  | string (s : List Nat) (f : StrFormat)
  | array (xs : List Obj)
  | dict (d : List (List Nat × Obj))
  | stream (d : List (List Nat × Obj)) (content : List Nat)
  | ref (id : Nat × Nat)

instance : Inhabited Obj := ⟨Obj.null⟩

/-- Source `Writer::need_separator`: variants that need a leading separator. -/
def needSep : Obj → Bool
  | .null | .boolean _ | .integer _ | .real _ | .ref _ => true
  | _ => false

/-- Source `Writer::need_end_separator`: variants that need a separator before
`endobj`. -/
def needEndSep : Obj → Bool
  | .null | .boolean _ | .integer _ | .real _ | .name _ | .ref _ | .stream _ _ => true
  | _ => false

/-- Lookup in an ordered dictionary (association list), first match. -/
def dictGet (d : List (List Nat × Obj)) (k : List Nat) : Option Obj :=
  (d.find? (fun p => p.1 = k)).map Prod.snd

/-- Modelled from the spec: `Dictionary::set` (used by `write_trailer` for the
`Size` key) replaces the value of an existing key in place, else appends. -/
def dictSet (d : List (List Nat × Obj)) (k : List Nat) (v : Obj) :
    List (List Nat × Obj) :=
  if (d.map Prod.fst).contains k then
    d.map (fun p => if p.1 = k then (k, v) else p)
  else d ++ [(k, v)]

/-- Modelled from the spec: `Object::type_name`, the "declared type name" of
§4.5 — the value of the `Type` key of a dictionary or of a stream's
dictionary, when that value is a name. -/
def typeName : Obj → Option (List Nat)
  | .dict d | .stream d _ =>
    match dictGet d (ascii "Type") with
    | some (.name n) => some n
    | _ => none
  | _ => none

/-- The skip test of `save_internal`: an object is excluded from the emission
loop iff its declared type name is `ObjStm`, `XRef` or `Linearized`. -/
def skipObj (o : Obj) : Bool :=
  match typeName o with
  | some n => n = ascii "ObjStm" ∨ n = ascii "XRef" ∨ n = ascii "Linearized"
  | none => false

/-! ### Lexical encoder (`Writer::write_name`, `Writer::write_string`) -/

/-- The byte set of the source literal `b" \t\n\r\x0C()<>[]{}/%#"` in
`write_name`. -/
def nameEscSet : List Nat := ascii " \t\n\r\x0C()<>[]\x7b\x7d/%#"

/-- Per-byte encoding of `write_name`: delimiter/whitespace bytes and bytes
outside `[33, 126]` become `#` plus two uppercase hex digits, others are kept. -/
def escNameByte (b : Nat) : List Nat :=
  if nameEscSet.contains b ∨ b < 33 ∨ 126 < b then
    [35, uhexDigit (b / 16), uhexDigit (b % 16)]
  else [b]

/-- Source `Writer::write_name`: emit `/`, then each byte through
`escNameByte`. -/
def writeNameBytes (n : List Nat) : List Nat := 47 :: n.flatMap escNameByte

/-- The scan loop of `write_string` for literal strings: `i` is the index of
the next byte, `esc` the `escape_indice` vector, `st` the `parentheses` stack
of indices of currently unmatched `(` (most recent first; the source `Vec`
pushes and pops at its end, which is the head here). -/
def scanLit (i : Nat) (esc st : List Nat) : List Nat → List Nat × List Nat
  | [] => (esc, st)
  | b :: rest =>
    if b = 40 then scanLit (i + 1) esc (i :: st) rest
    else if b = 41 then
      match st with
      | [] => scanLit (i + 1) (esc ++ [i]) [] rest
      | _ :: st' => scanLit (i + 1) esc st' rest
    else if b = 92 ∨ b = 13 then scanLit (i + 1) (esc ++ [i]) st rest
    else scanLit (i + 1) esc st rest

/-- The final `escape_indice` list: the scan's escapes followed by the
indices left on the parenthesis stack (the source appends the leftover `Vec`,
which is in increasing index order, i.e. the reversed head-first stack). -/
def escSetOf (text : List Nat) : List Nat :=
  let r := scanLit 0 [] [] text
  r.1 ++ r.2.reverse

/-- Emission of one byte of a literal string: a marked index gets a leading
backslash, with CR rewritten to `r`. -/
def emitLitByte (es : List Nat) (p : Nat × Nat) : List Nat :=
  if es.contains p.1 then [92, if p.2 = 13 then 114 else p.2] else [p.2]

/-- Source `Writer::write_string`, literal branch: wrap in parentheses and
escape exactly the indices collected by the scan (the source short-circuits
when no index is marked; both branches are kept). -/
def encLiteral (text : List Nat) : List Nat :=
  [40] ++
    (if escSetOf text = [] then text
     else (idxFrom 0 text).flatMap (emitLitByte (escSetOf text))) ++ [41]

/-- Source `Writer::write_string`, hexadecimal branch. -/
def encHex (text : List Nat) : List Nat :=
  [60] ++ text.flatMap (fun b => [uhexDigit (b / 16), uhexDigit (b % 16)]) ++ [62]

/-- Source `Writer::write_string`. -/
def writeStringBytes (text : List Nat) : StrFormat → List Nat
  | .literal => encLiteral text
  | .hexadecimal => encHex text

/-! ### Pure serialization (`Writer::write_object` and friends, bytes only)

The stateful writer below emits exactly these bytes; the frame theorems prove
that.  The recursion mirrors `write_object` / `write_array` /
`write_dictionary` / `write_stream`. -/

mutual
/-- Bytes produced by `Writer::write_object` for one object. -/
def renderObj : Obj → List Nat
  | .null => ascii "null"
  | .boolean b => if b then ascii "true" else ascii "false"
  | .integer i => intRepr i
  | .real t => t
  | .name n => writeNameBytes n
  | .string s f => writeStringBytes s f
  | .array xs => ascii "[" ++ renderArr true xs ++ ascii "]"
  | .dict d => ascii "<<" ++ renderEntries d ++ ascii ">>"
  | .stream d c =>
    ascii "<<" ++ renderEntries d ++ ascii ">>" ++ ascii "stream\n" ++ c
      ++ ascii "endstream"
  | .ref id => decRepr id.1 ++ [32] ++ decRepr id.2 ++ ascii " R"

/-- Bytes of the elements of an array: every element after the first gets a
single leading space when `need_separator` holds for it. -/
def renderArr (first : Bool) : List Obj → List Nat
  | [] => []
  | o :: rest =>
    (if first then [] else if needSep o then [32] else []) ++ renderObj o
      ++ renderArr false rest

/-- Bytes of the entries of a dictionary, in insertion order: encoded key
name, a single space when `need_separator` holds for the value, then the
value. -/
def renderEntries : List (List Nat × Obj) → List Nat
  | [] => []
  | (k, v) :: rest =>
    writeNameBytes k ++ (if needSep v then [32] else []) ++ renderObj v
      ++ renderEntries rest
end

/-- Shift the positions of a list of recorded spans by `a`. -/
def shiftSpans (a : Nat) (sp : List (Nat × Nat × List Nat)) :
    List (Nat × Nat × List Nat) :=
  sp.map (fun q => (a + q.1, a + q.2.1, q.2.2))

mutual
/-- The Contents spans recorded while serializing one object, as
`(start, stop, value bytes)` relative to the first byte of the object's own
serialization, in recording order (nested dictionaries record during their
value's serialization, an enclosing `Contents` entry records right after its
value is written). -/
def spansObj : Obj → List (Nat × Nat × List Nat)
  | .array xs => shiftSpans (ascii "[").length (spansArr true xs)
  | .dict d => shiftSpans (ascii "<<").length (spansEntries d)
  | .stream d _ => shiftSpans (ascii "<<").length (spansEntries d)
  | _ => []

/-- Contents spans of array elements, relative to the first element byte. -/
def spansArr (first : Bool) : List Obj → List (Nat × Nat × List Nat)
  | [] => []
  | o :: rest =>
    let pre := (if first then ([] : List Nat) else if needSep o then [32] else []).length
    shiftSpans pre (spansObj o)
      ++ shiftSpans (pre + (renderObj o).length) (spansArr false rest)

/-- Contents spans of dictionary entries, relative to the first entry byte. -/
def spansEntries : List (List Nat × Obj) → List (Nat × Nat × List Nat)
  | [] => []
  | (k, v) :: rest =>
    let p1 := (writeNameBytes k).length + (if needSep v then ([32] : List Nat) else []).length
    let p2 := p1 + (renderObj v).length
    shiftSpans p1 (spansObj v)
      ++ (if k = ascii "Contents" then [(p1, p2, renderObj v)] else [])
      ++ shiftSpans p2 (spansEntries rest)
end

mutual
/-- Number of dictionary keys equal to `Contents` anywhere inside an object. -/
def countContents : Obj → Nat
  | .array xs => countContentsArr xs
  | .dict d => countContentsEntries d
  | .stream d _ => countContentsEntries d
  | _ => 0

/-- Number of `Contents` keys inside the elements of an array. -/
def countContentsArr : List Obj → Nat
  | [] => 0
  | o :: rest => countContents o + countContentsArr rest

/-- Number of `Contents` keys among and inside the entries of a dictionary. -/
def countContentsEntries : List (List Nat × Obj) → Nat
  | [] => 0
  | (k, v) :: rest =>
    countContents v + (if k = ascii "Contents" then 1 else 0)
      + countContentsEntries rest
end

/-! ### Cross-reference model -/

/-- Modelled from the spec: the `XrefEntry` variants of §3 (the `Xref`
declaration is outside the two source files). -/
inductive XrefEntry where
  | normal (offset : Nat) (generation : Nat)
  | compressed (container : Nat) (index : Nat)
  | free
deriving DecidableEq

/-- An `Xref`'s entry table: id to entry.  Modelled from the spec: a `BTreeMap`
keyed by id, so `insert` replaces the entry of an existing id; only the
key-value content is modelled (`write_xref` sorts the keys itself). -/
abbrev XrefMap := List (Nat × XrefEntry)

/-- Modelled from the spec: `Xref::insert` (replace the entry of an existing
id, else add the id). -/
def xInsert (x : XrefMap) (id : Nat) (e : XrefEntry) : XrefMap :=
  if (x.map Prod.fst).contains id then
    x.map (fun p => if p.1 = id then (id, e) else p)
  else x ++ [(id, e)]

/-- Modelled from the spec: `Xref::get`. -/
def xGet (x : XrefMap) (id : Nat) : Option XrefEntry :=
  (x.find? (fun p => p.1 = id)).map Prod.snd

/-- Insert into a sorted list of distinct keys (models the `keys.sort()` call
of `write_xref` on the collected map keys). -/
def insSortedNat (a : Nat) : List Nat → List Nat
  | [] => [a]
  | b :: rest => if a ≤ b then a :: b :: rest else b :: insSortedNat a rest

/-- The sorted key list `write_xref` iterates over. -/
def sortedKeys (x : XrefMap) : List Nat :=
  (x.map Prod.fst).foldr insSortedNat []

/-- One rendered cross-reference entry line,
`writeln!("{:>010} {:>05} {} ", offset, generation, kind)`. -/
def entryLine (off gen kind : Nat) : List Nat :=
  padLeft0 10 (decRepr off) ++ [32] ++ padLeft0 5 (decRepr gen) ++ [32, kind, 32, 10]

/-- The free-head line written for object number 0 and for missing entries. -/
def freeLine : List Nat := entryLine 0 65535 102

/-- The line(s) a single looked-up entry contributes inside `output_entries`:
a `Normal` entry yields its `n` line, a missing entry yields a free line, and
a present `Free` or `Compressed` entry yields nothing (the source `if let`
silently skips those variants). -/
def lineOfEntry : Option XrefEntry → List Nat
  | some (.normal off gen) => entryLine off gen 110
  | some _ => []
  | none => freeLine

/-- Declared entry count of a subsection: the synthetic free head adds one in
the subsection starting at 0. -/
def declaredLen (sec : Nat × List (Option XrefEntry)) : Nat :=
  if sec.1 = 0 then sec.2.length + 1 else sec.2.length

/-- The object ids a subsection's own entries stand for: in the `start = 0`
subsection the synthetic head occupies object number 0 and the accumulated
entries follow from 1; elsewhere they follow from `start`. -/
def idsOf (sec : Nat × List (Option XrefEntry)) : List Nat :=
  List.range' (if sec.1 = 0 then 1 else sec.1) sec.2.length

/-- The subsection loop of `Writer::write_xref`, producing the flushed
subsections as `(start, accumulated looked-up entries)`: a key different from
the expected `current` flushes, resets `start` and the accumulator, and every
key pushes its looked-up entry and advances `current`. -/
def xrefLoop (get : Nat → Option XrefEntry) (start current : Nat)
    (pend : List (Option XrefEntry)) :
    List Nat → List (Nat × List (Option XrefEntry))
  | [] => [(start, pend)]
  | oid :: rest =>
    if oid ≠ current then
      (start, pend) :: xrefLoop get oid (oid + 1) [get oid] rest
    else xrefLoop get start (current + 1) (pend ++ [get oid]) rest

/-- The subsections `write_xref` emits for a sorted key list, with the
source's initial state `start = 0`, `current = 1`, empty accumulator. -/
def xrefSections (get : Nat → Option XrefEntry) (keys : List Nat) :
    List (Nat × List (Option XrefEntry)) :=
  xrefLoop get 0 1 [] keys

/-- Bytes of one subsection as `output_entries` writes them: the
`{start} {len}` header line, the synthetic free head when `start = 0`, then
the lines of the accumulated entries. -/
def renderSection (sec : Nat × List (Option XrefEntry)) : List Nat :=
  decRepr sec.1 ++ [32] ++ decRepr (declaredLen sec) ++ [10]
    ++ (if sec.1 = 0 then freeLine else []) ++ (sec.2.map lineOfEntry).flatten

/-- Bytes of the whole classic cross-reference table of `Writer::write_xref`. -/
def renderXref (x : XrefMap) : List Nat :=
  ascii "xref" ++ [10]
    ++ ((xrefSections (xGet x) (sortedKeys x)).map renderSection).flatten

/-- Maximal runs of consecutive values of a list (the claim-side partition of a
sorted id set into contiguous subsections: a gap always closes the run). -/
def maximalRuns : List Nat → List (List Nat)
  | [] => []
  | [x] => [[x]]
  | x :: y :: rest =>
    match maximalRuns (y :: rest) with
    | [] => [[x]]
    | r :: rs => if y = x + 1 then (x :: r) :: rs else [x] :: r :: rs

/-! ### The position-tracking sink and the stateful writer -/

/-- One recorded insertion into the Contents byte-map: the indirect object id
it was recorded against, the absolute byte span, and (ghost) the bytes the
span is supposed to cover. -/
structure CRec where
  id : Nat × Nat
  start : Nat
  stop : Nat
  bytes : List Nat
deriving DecidableEq

/-- The Contents byte-map: ObjectId to byte span.  Modelled from the spec: a
`BTreeMap`, so `insert` replaces the span of an existing id; only the
key-value content is modelled. -/
abbrev CMap := List ((Nat × Nat) × Nat × Nat)

/-- Modelled from the spec: `BTreeMap::insert` for the Contents byte-map. -/
def cmInsert (m : CMap) (k : Nat × Nat) (v : Nat × Nat) : CMap :=
  if (m.map Prod.fst).contains k then
    m.map (fun p => if p.1 = k then (k, v) else p)
  else m ++ [(k, v)]

/-- Lookup in the Contents byte-map. -/
def cmLookup (m : CMap) (k : Nat × Nat) : Option (Nat × Nat) :=
  (m.find? (fun p => p.1 = k)).map Prod.snd

/-- The writer state: the `CountingWrite` sink (`out` is everything written,
`count` is `bytes_written`, `writes` is the ghost sequence of individual write
calls), the threaded optional Contents byte-map `cmap` with its ghost
insertion log `clog`, and the `Xref` being built with its ghost insertion log
`xlog`. -/
structure WState where
  out : List Nat
  count : Nat
  writes : List (List Nat)
  cmap : Option CMap
  clog : List CRec
  xref : XrefMap
  xlog : List (Nat × XrefEntry)

/-- The state at the start of a save: empty sink, no maps. -/
def initWS : WState :=
  ⟨[], 0, [], none, [], [], []⟩

/-- One write to the sink (`CountingWrite::write_all`): the byte counter grows
by the buffer length and the buffer is appended. -/
def wr (s : WState) (buf : List Nat) : WState :=
  { s with out := s.out ++ buf, count := s.count + buf.length,
           writes := s.writes ++ [buf] }

/-- The recording step of `write_dictionary` for a key equal to `Contents`:
when an indirect object id and the byte-map are both present, insert the span
from `start` to the current counter against that id (and log it, with the
value's bytes, as ghost data).  The source stores both ends as `u32`
(`bytes_written as u32`), so the end is the counter reduced modulo `2 ^ 32`;
`start` arrives already reduced by the caller. -/
def recordContents (oid : Option (Nat × Nat)) (start : Nat) (s : WState)
    (vbytes : List Nat) : WState :=
  match oid, s.cmap with
  | some i, some m =>
    { s with cmap := some (cmInsert m i (start, s.count % 2 ^ 32)),
             clog := s.clog ++ [⟨i, start, s.count % 2 ^ 32, vbytes⟩] }
  | _, _ => s

mutual
/-- Source `Writer::write_object`: serialize one object into the sink.  The
`oid` parameter is the enclosing indirect object's id (`None` outside an
indirect object); the optional Contents byte-map is threaded through the
state. -/
def writeObject (oid : Option (Nat × Nat)) (s : WState) : Obj → WState
  | .null => wr s (ascii "null")
  | .boolean b => wr s (if b then ascii "true" else ascii "false")
  | .integer i => wr s (intRepr i)
  | .real t => wr s t
  | .name n => wr s (writeNameBytes n)
  | .string t f => wr s (writeStringBytes t f)
  | .array xs => wr (writeArray oid true (wr s (ascii "[")) xs) (ascii "]")
  | .dict d => wr (writeDictEntries oid (wr s (ascii "<<")) d) (ascii ">>")
  | .stream d c =>
    wr (wr (wr (wr (writeDictEntries oid (wr s (ascii "<<")) d) (ascii ">>"))
      (ascii "stream\n")) c) (ascii "endstream")
  | .ref id => wr s (decRepr id.1 ++ [32] ++ decRepr id.2 ++ ascii " R")

/-- Source `Writer::write_array` body: each element after the first is
preceded by a space when `need_separator` holds for it. -/
def writeArray (oid : Option (Nat × Nat)) (first : Bool) (s : WState) :
    List Obj → WState
  | [] => s
  | o :: rest =>
    let s1 := if first then s else if needSep o then wr s [32] else s
    writeArray oid false (writeObject oid s1 o) rest

/-- Source `Writer::write_dictionary` body: for each entry, the encoded key
name, an optional space, the value (remembering the counter right before it,
truncated to `u32` by `let start = file.bytes_written as u32`), and the
Contents recording step. -/
def writeDictEntries (oid : Option (Nat × Nat)) (s : WState) :
    List (List Nat × Obj) → WState
  | [] => s
  | (k, v) :: rest =>
    let s1 := wr s (writeNameBytes k)
    let s2 := if needSep v then wr s1 [32] else s1
    let start := s2.count % 2 ^ 32
    let s3 := writeObject oid s2 v
    let s4 := if k = ascii "Contents" then recordContents oid start s3 (renderObj v)
              else s3
    writeDictEntries oid s4 rest
end

/-- Source `Writer::write_indirect_object`: record a `Normal` entry for the
object's id at the current counter (the source truncates `bytes_written` to
`u32`), emit the `{id} {generation} obj` header with its conditional
separator, the object itself, and the `endobj` footer with its conditional
separator. -/
def writeIndirect (s : WState) (oid : Nat × Nat) (o : Obj) : WState :=
  let off := s.count % 2 ^ 32
  let s0 := { s with xref := xInsert s.xref oid.1 (.normal off oid.2),
                     xlog := s.xlog ++ [(oid.1, XrefEntry.normal off oid.2)] }
  let s1 := wr s0 (decRepr oid.1 ++ [32] ++ decRepr oid.2 ++ ascii " obj"
    ++ (if needSep o then [32] else []))
  let s2 := writeObject (some oid) s1 o
  wr s2 ((if needEndSep o then [32] else []) ++ ascii "endobj" ++ [10])

/-- The emission loop of `save_internal` over the document's object table:
objects whose declared type name is `ObjStm`, `XRef` or `Linearized` are
skipped, the others go through `write_indirect_object`. -/
def saveLoop (s : WState) : List ((Nat × Nat) × Obj) → WState
  | [] => s
  | (oid, o) :: rest =>
    saveLoop (if skipObj o then s else writeIndirect s oid o) rest

/-- Stateful emission of the entry lines of one flushed subsection. -/
def emitEntriesSt (s : WState) : List (Option XrefEntry) → WState
  | [] => s
  | e :: rest =>
    emitEntriesSt
      (match e with
       | some (.normal off gen) => wr s (entryLine off gen 110)
       | some _ => s
       | none => wr s freeLine) rest

/-- Stateful `output_entries`: the subsection header line, the synthetic free
head when `start = 0`, then the entry lines. -/
def emitSectionSt (s : WState) (start : Nat) (pend : List (Option XrefEntry)) :
    WState :=
  let s1 := wr s (decRepr start ++ [32] ++ decRepr (declaredLen (start, pend)) ++ [10])
  let s2 := if start = 0 then wr s1 freeLine else s1
  emitEntriesSt s2 pend

/-- The stateful subsection loop of `Writer::write_xref` (same control flow as
`xrefLoop`, emitting each flushed subsection). -/
def xrefLoopSt (x : XrefMap) (s : WState) (start current : Nat)
    (pend : List (Option XrefEntry)) : List Nat → WState
  | [] => emitSectionSt s start pend
  | oid :: rest =>
    if oid ≠ current then
      xrefLoopSt x (emitSectionSt s start pend) oid (oid + 1) [xGet x oid] rest
    else xrefLoopSt x s start (current + 1) (pend ++ [xGet x oid]) rest

/-- Source `Writer::write_xref`: the `xref` keyword line, then the subsection
loop over the sorted keys of the entry table. -/
def writeXrefTable (s : WState) (x : XrefMap) : WState :=
  xrefLoopSt x (wr s (ascii "xref" ++ [10])) 0 1 [] (sortedKeys x)

/-- Modelled from the spec: the `Document` consumed by a save — the object
table (iterated in the order given here; a `BTreeMap` yields ascending ids),
the trailer dictionary, the version text and the running maximum id. -/
structure Doc where
  version : List Nat
  objects : List ((Nat × Nat) × Obj)
  trailer : List (List Nat × Obj)
  maxId : Nat

/-- The trailer dictionary as `write_trailer` mutates it: `Size` set to
`max_id + 1` (a `u32` sum, hence the truncation). -/
def trailerDict (doc : Doc) : List (List Nat × Obj) :=
  dictSet doc.trailer (ascii "Size") (.integer (((doc.maxId + 1) % 2 ^ 32 : Nat) : Int))

/-- Source `Document::write_trailer`: set `Size`, write `trailer\n`, then the
trailer dictionary with no indirect-object id and no Contents byte-map (the
threaded map is restored afterwards, since the source passes a separate
`None`). -/
def writeTrailer (s : WState) (doc : Doc) : WState :=
  let s1 := wr s (ascii "trailer" ++ [10])
  let s2 := writeObject none { s1 with cmap := none } (.dict (trailerDict doc))
  { s2 with cmap := s1.cmap }

/-- Source `Document::save_internal`: header line, the emission loop (with a
fresh, active Contents byte-map), the cross-reference table at the remembered
start offset, the trailer, and the `startxref` footer. -/
def save (doc : Doc) : WState :=
  let s1 := wr initWS (ascii "%PDF-" ++ doc.version ++ [10])
  let s2 := saveLoop { s1 with cmap := some [] } doc.objects
  let xrefStart := s2.count
  let s3 := writeXrefTable s2 s2.xref
  let s4 := writeTrailer s3 doc
  wr s4 ([10] ++ ascii "startxref" ++ [10] ++ decRepr xrefStart ++ [10] ++ ascii "%%EOF")

/-! ### The fallible sink (I/O errors)

Every write argument of a save depends only on the previously accepted byte
counts, never on a result of the sink (`CountingWrite::write_all` bumps
`bytes_written` before the inner write and any error aborts the whole save via
`?`).  So a save against a fallible sink is the replay of the deterministic
write sequence: the sink accepts or rejects each write call in order, and the
first rejection aborts with the source's `IoError`. -/

/-- Replay a write sequence against a sink that accepts call `j` iff `ok j`;
`j` is the index of the next call.  Returns `Except.error j` at the first
rejected call, `Except.ok ()` when every call was accepted. -/
def replayWrites (ok : Nat → Bool) (j : Nat) : List (List Nat) → Except Nat Unit
  | [] => .ok ()
  | _ :: rest => if ok j then replayWrites ok (j + 1) rest else .error j

/-- Result of a save against a fallible sink. -/
def saveReplay (doc : Doc) (ok : Nat → Bool) : Except Nat Unit :=
  replayWrites ok 0 (save doc).writes

/-- The write calls actually attempted during a save against a fallible sink:
all of them on success, and exactly the calls up to and including the first
rejected one on failure. -/
def attemptedWrites (doc : Doc) (ok : Nat → Bool) : List (List Nat) :=
  match saveReplay doc ok with
  | .ok _ => (save doc).writes
  | .error j => (save doc).writes.take (j + 1)

/-- The delimiter/whitespace byte set of the claim for `encodeName`:
space, tab, LF, CR, FF, both parentheses, angle and square and curly
brackets, slash, percent, hash. -/
def claimDelims : List Nat :=
  [32, 9, 10, 13, 12, 40, 41, 60, 62, 91, 93, 123, 125, 47, 37, 35]

/-- Claim-side reading of "`#` followed by two uppercase hex digits of the
byte value": `d` is the single uppercase hexadecimal digit of `v < 16`. -/
def isUpperHexDigitOf (d v : Nat) : Prop :=
  (v < 10 ∧ d = 48 + v) ∨ (10 ≤ v ∧ v < 16 ∧ d = 55 + v)

instance (d v : Nat) : Decidable (isUpperHexDigitOf d v) := by
  unfold isUpperHexDigitOf
  infer_instance

/-- Claim-side reading of the escaped form of one name byte: `#` then the
uppercase hex digits of the byte's high and low nibbles. -/
def claimHexEsc (l : List Nat) (b : Nat) : Prop :=
  l.length = 3 ∧ l.getD 0 0 = 35 ∧ isUpperHexDigitOf (l.getD 1 0) (b / 16)
    ∧ isUpperHexDigitOf (l.getD 2 0) (b % 16)

instance (l : List Nat) (b : Nat) : Decidable (claimHexEsc l b) := by
  unfold claimHexEsc
  infer_instance

/-- A concrete lookup for the C5 witness. -/
def g5 : Nat → Option XrefEntry := xGet [(2, .normal 10 0), (5, .normal 20 1)]

/-- Claim-side test: the entries that produce a line in `output_entries` are
the `Normal` ones and the missing ones. -/
def emitsLine : Option XrefEntry → Bool
  | some (.normal _ _) => true
  | some _ => false
  | none => true

/-- Well-formedness of one entry for line rendering: a `Normal` entry's offset
fits in 10 digits and its generation in 5 (always true of the `u32` offsets
and `u16` generations the writer stores). -/
def entryOk : Option XrefEntry → Prop
  | some (.normal off gen) => off < 10 ^ 10 ∧ gen < 10 ^ 5
  | _ => True

instance : ∀ e : Option XrefEntry, Decidable (entryOk e)
  | none => .isTrue trivial
  | some (.normal o g) => inferInstanceAs (Decidable (o < 10 ^ 10 ∧ g < 10 ^ 5))
  | some .free => .isTrue trivial
  | some (.compressed _ _) => .isTrue trivial

/-- The bytes of a rendered subsection after its header line. -/
def sectionLines (sec : Nat × List (Option XrefEntry)) : List Nat :=
  (if sec.1 = 0 then freeLine else []) ++ (sec.2.map lineOfEntry).flatten

/-- The conclusion of the C6 theorem (kept as a definition so the witness can
state it at a concrete input). -/
def c6Concl (off gen : Nat) (sec : Nat × List (Option XrefEntry)) : Prop :=
  (entryLine off gen 110).length = 20 ∧
  entryLine off gen 110
      = padLeft0 10 (decRepr off) ++ [32] ++ padLeft0 5 (decRepr gen) ++ [32, 110, 32, 10] ∧
  (padLeft0 10 (decRepr off)).length = 10 ∧ (padLeft0 5 (decRepr gen)).length = 5 ∧
  lineOfEntry none = entryLine 0 65535 102 ∧
  (∀ o g, lineOfEntry (some (.normal o g)) = entryLine o g 110) ∧
  lineOfEntry (some .free) = [] ∧ (∀ c i, lineOfEntry (some (.compressed c i)) = []) ∧
  renderSection sec
      = decRepr sec.1 ++ [32] ++ decRepr (declaredLen sec) ++ [10] ++ sectionLines sec ∧
  (sectionLines sec).length
      = 20 * ((if sec.1 = 0 then 1 else 0) + sec.2.countP emitsLine)

/-! ### Frame lemmas: the stateful writer appends the pure serialization

`cupd` and `clogAdd` describe the effect of one serialization on the threaded
Contents byte-map and on its ghost log: all spans of the object, shifted to
the current counter, are inserted against the enclosing indirect object id —
when an id and a map are both present. -/

/-- Effect of recording a span list (relative positions, shifted by `c`)
on the optional Contents byte-map; both ends are reduced modulo `2 ^ 32`,
mirroring the source's `as u32` casts. -/
def cupd (oid : Option (Nat × Nat)) (c : Nat) (sp : List (Nat × Nat × List Nat)) :
    Option CMap → Option CMap
  | none => none
  | some m =>
    match oid with
    | none => some m
    | some i =>
      some (sp.foldl
        (fun m' q => cmInsert m' i ((c + q.1) % 2 ^ 32, (c + q.2.1) % 2 ^ 32)) m)

/-- Ghost log records added for a span list shifted by `c`, both ends reduced
modulo `2 ^ 32` as in the source's `as u32` casts. -/
def clogAdd (oid : Option (Nat × Nat)) (c : Nat)
    (sp : List (Nat × Nat × List Nat)) : List CRec :=
  match oid with
  | none => []
  | some i => sp.map (fun q => ⟨i, (c + q.1) % 2 ^ 32, (c + q.2.1) % 2 ^ 32, q.2.2⟩)

/-- Frame property for `writeObject` at one object: the call appends exactly
the pure serialization to the sink, advances the counter by its length,
leaves the cross-reference state alone, and applies exactly the object's
Contents spans (shifted to the current counter) to the byte-map and its log. -/
def FrameObj (o : Obj) : Prop :=
  ∀ (oid : Option (Nat × Nat)) (s : WState),
    (writeObject oid s o).out = s.out ++ renderObj o ∧
    (writeObject oid s o).count = s.count + (renderObj o).length ∧
    (writeObject oid s o).xref = s.xref ∧
    (writeObject oid s o).xlog = s.xlog ∧
    (writeObject oid s o).clog
        = s.clog ++ (if s.cmap.isSome then clogAdd oid s.count (spansObj o) else []) ∧
    (writeObject oid s o).cmap = cupd oid s.count (spansObj o) s.cmap

/-- Frame property for `writeArray`. -/
def FrameArr (first : Bool) (xs : List Obj) : Prop :=
  ∀ (oid : Option (Nat × Nat)) (s : WState),
    (writeArray oid first s xs).out = s.out ++ renderArr first xs ∧
    (writeArray oid first s xs).count = s.count + (renderArr first xs).length ∧
    (writeArray oid first s xs).xref = s.xref ∧
    (writeArray oid first s xs).xlog = s.xlog ∧
    (writeArray oid first s xs).clog
        = s.clog ++ (if s.cmap.isSome then clogAdd oid s.count (spansArr first xs) else []) ∧
    (writeArray oid first s xs).cmap = cupd oid s.count (spansArr first xs) s.cmap

/-- Frame property for `writeDictEntries`. -/
def FrameEntries (d : List (List Nat × Obj)) : Prop :=
  ∀ (oid : Option (Nat × Nat)) (s : WState),
    (writeDictEntries oid s d).out = s.out ++ renderEntries d ∧
    (writeDictEntries oid s d).count = s.count + (renderEntries d).length ∧
    (writeDictEntries oid s d).xref = s.xref ∧
    (writeDictEntries oid s d).xlog = s.xlog ∧
    (writeDictEntries oid s d).clog
        = s.clog ++ (if s.cmap.isSome then clogAdd oid s.count (spansEntries d) else []) ∧
    (writeDictEntries oid s d).cmap = cupd oid s.count (spansEntries d) s.cmap

/-- Coverage property of the spans of one object, relative to its own
serialization bytes. -/
def SpansOk (o : Obj) : Prop :=
  ∀ q ∈ spansObj o, q.2.1 = q.1 + q.2.2.length ∧ q.2.1 ≤ (renderObj o).length ∧
    byteSlice q.1 q.2.1 (renderObj o) = q.2.2

/-- Coverage property of the spans of array elements. -/
def SpansOkArr (first : Bool) (xs : List Obj) : Prop :=
  ∀ q ∈ spansArr first xs, q.2.1 = q.1 + q.2.2.length ∧ q.2.1 ≤ (renderArr first xs).length ∧
    byteSlice q.1 q.2.1 (renderArr first xs) = q.2.2

/-- Coverage property of the spans of dictionary entries. -/
def SpansOkEntries (d : List (List Nat × Obj)) : Prop :=
  ∀ q ∈ spansEntries d, q.2.1 = q.1 + q.2.2.length ∧ q.2.1 ≤ (renderEntries d).length ∧
    byteSlice q.1 q.2.1 (renderEntries d) = q.2.2

/-- The conclusion of the C8 theorem. -/
def c8Concl (oid : Nat × Nat) (s : WState) (o : Obj) : Prop :=
  ((writeObject (some oid) s o).clog
      = s.clog ++ (spansObj o).map
          (fun q => CRec.mk oid (s.count + q.1) (s.count + q.2.1) q.2.2)) ∧
  (spansObj o).length = countContents o ∧
  (∀ q ∈ spansObj o, q.2.1 = q.1 + q.2.2.length ∧
      byteSlice (s.count + q.1) (s.count + q.2.1) (writeObject (some oid) s o).out
        = q.2.2) ∧
  (∀ (oid' : Option (Nat × Nat)) (s' : WState), s'.cmap = none →
      (writeObject oid' s' o).clog = s'.clog ∧ (writeObject oid' s' o).cmap = none)

/-- The state at the start of the C8/C10 witness: fresh sink, active map. -/
def cwS : WState := { initWS with cmap := some [] }

/-- The object of the C8/C10 witness: a dictionary with a `Contents` entry
and a nested dictionary with another `Contents` entry. -/
def cwObj : Obj :=
  .dict [(ascii "Contents", .integer 5),
         (ascii "A", .dict [(ascii "Contents", .boolean true)])]

/-- The conclusion of the C10 theorem: the map stays present, the entry for
the enclosing id is exactly the last inserted span (with both ends reduced
modulo `2 ^ 32`, as the source's `as u32` casts store them), and key
multiplicity stays at most one. -/
def c10Concl (oid : Nat × Nat) (s : WState) (o : Obj) (m : CMap) : Prop :=
  ((writeObject (some oid) s o).cmap).isSome = true ∧
  cmLookup (((writeObject (some oid) s o).cmap).getD []) oid
      = (match (spansObj o).getLast? with
         | some q => some ((s.count + q.1) % 2 ^ 32, (s.count + q.2.1) % 2 ^ 32)
         | none => cmLookup m oid) ∧
  (∀ k', (m.map Prod.fst).count k' ≤ 1 →
    ((((writeObject (some oid) s o).cmap).getD []).map Prod.fst).count k' ≤ 1)

/-! ### Shape of a whole save -/

/-- The `{id} {generation} obj` header of an indirect object, with its
conditional trailing separator. -/
def objHeaderBytes (oid : Nat × Nat) (o : Obj) : List Nat :=
  decRepr oid.1 ++ [32] ++ decRepr oid.2 ++ ascii " obj" ++ (if needSep o then [32] else [])

/-- The `endobj` footer of an indirect object, with its conditional leading
separator and line terminator. -/
def objFooterBytes (o : Obj) : List Nat :=
  (if needEndSep o then [32] else []) ++ ascii "endobj" ++ [10]

/-- All bytes of one emitted indirect object. -/
def renderIndirect (oid : Nat × Nat) (o : Obj) : List Nat :=
  objHeaderBytes oid o ++ renderObj o ++ objFooterBytes o

/-- The cross-reference insertions the emission loop performs, starting at
byte counter `c`: one `Normal` entry per non-skipped object, with the
`u32`-truncated counter at the start of its header and its generation. -/
def xlogF (c : Nat) : List ((Nat × Nat) × Obj) → List (Nat × XrefEntry)
  | [] => []
  | (oid, o) :: rest =>
    if skipObj o then xlogF c rest
    else (oid.1, XrefEntry.normal (c % 2 ^ 32) oid.2)
      :: xlogF (c + (renderIndirect oid o).length) rest

/-- The header line bytes of a save. -/
def headerBytes (doc : Doc) : List Nat := ascii "%PDF-" ++ doc.version ++ [10]

/-- All bytes of the emitted indirect objects of a save, in table order. -/
def bodyBytes (doc : Doc) : List Nat :=
  ((doc.objects.filter (fun p => !skipObj p.2)).map (fun p => renderIndirect p.1 p.2)).flatten

/-- The byte offset at which the cross-reference table starts (the value
written after `startxref`). -/
def startOffOf (doc : Doc) : Nat := (headerBytes doc).length + (bodyBytes doc).length

/-- The cross-reference map a save builds: all insertions of the emission
loop, in order, applied to the empty map. -/
def finalXrefOf (doc : Doc) : XrefMap :=
  (xlogF (headerBytes doc).length doc.objects).foldl (fun x e => xInsert x e.1 e.2) []

/-- The `trailer` keyword plus the serialized trailer dictionary. -/
def trailerBytes (doc : Doc) : List Nat :=
  ascii "trailer" ++ [10] ++ renderObj (.dict (trailerDict doc))

/-- The footer of a save. -/
def footerBytes (doc : Doc) : List Nat :=
  [10] ++ ascii "startxref" ++ [10] ++ decRepr (startOffOf doc) ++ [10] ++ ascii "%%EOF"

/-- The byte offset at which the `i`-th emitted object's header begins: the
header line plus the serializations of the previously emitted objects. -/
def offAt (doc : Doc) (i : Nat) : Nat :=
  (headerBytes doc).length
    + ((((doc.objects.filter (fun p => !skipObj p.2)).take i).map
        (fun p => (renderIndirect p.1 p.2).length)).sum)

/-- The conclusion of the C1 theorem.  `xlog` is the ghost log of the
insertions the save performed into the cross-reference index, in order. -/
def c1Concl (doc : Doc) : Prop :=
  ((save doc).xlog.length = (doc.objects.filter (fun p => !skipObj p.2)).length) ∧
  (∀ i, i < (doc.objects.filter (fun p => !skipObj p.2)).length →
    (save doc).xlog.getD i (0, XrefEntry.free)
      = (((doc.objects.filter (fun p => !skipObj p.2)).getD i ((0, 0), Obj.null)).1.1,
         XrefEntry.normal (offAt doc i)
           ((doc.objects.filter (fun p => !skipObj p.2)).getD i ((0, 0), Obj.null)).1.2)) ∧
  (∀ i, i < (doc.objects.filter (fun p => !skipObj p.2)).length →
    byteSlice (offAt doc i)
        (offAt doc i
          + (objHeaderBytes
              ((doc.objects.filter (fun p => !skipObj p.2)).getD i ((0, 0), Obj.null)).1
              ((doc.objects.filter (fun p => !skipObj p.2)).getD i ((0, 0), Obj.null)).2).length)
        (save doc).out
      = objHeaderBytes
          ((doc.objects.filter (fun p => !skipObj p.2)).getD i ((0, 0), Obj.null)).1
          ((doc.objects.filter (fun p => !skipObj p.2)).getD i ((0, 0), Obj.null)).2) ∧
  ((save doc).out = headerBytes doc ++ bodyBytes doc ++ renderXref (finalXrefOf doc)
      ++ trailerBytes doc ++ footerBytes doc) ∧
  byteSlice (startOffOf doc) (startOffOf doc + 4) (save doc).out = ascii "xref"

/-- A small concrete document for the C1 witness. -/
def c1Doc : Doc := ⟨ascii "1.5", [((1, 0), .null), ((3, 2), .boolean true)], [], 3⟩

/-- The conclusion of the C9 theorem: a save against a fallible sink succeeds
iff the sink accepts every write call of the save; the first rejected call
aborts the save with the error (the source's `IoError`), all calls before it
were accepted, and the attempted calls are exactly the writes up to and
including the rejected one — none after it is attempted, and nothing is
retried. -/
def c9Concl (doc : Doc) (ok : Nat → Bool) : Prop :=
  (saveReplay doc ok = .ok () ↔ ∀ j, j < (save doc).writes.length → ok j = true) ∧
  (∀ e, saveReplay doc ok = .error e →
    e < (save doc).writes.length ∧ ok e = false ∧ (∀ j, j < e → ok j = true) ∧
    attemptedWrites doc ok = (save doc).writes.take (e + 1)) ∧
  (saveReplay doc ok = .ok () → attemptedWrites doc ok = (save doc).writes)

/-- A concrete fallible sink for the C9 witness: it rejects the third call. -/
def c9Ok : Nat → Bool := fun j => j ≠ 2

/-! ### Theorems -/

/-! ### Supporting lemmas for the literal-string scan -/

theorem scanLit_append (xs : List Nat) : ∀ (ys : List Nat) (i : Nat) (esc st : List Nat),
    scanLit i esc st (xs ++ ys)
      = scanLit (i + xs.length) (scanLit i esc st xs).1 (scanLit i esc st xs).2 ys := by
  induction xs with
  | nil => intro ys i esc st; simp [scanLit]
  | cons b rest ih =>
    intro ys i esc st
    have harith : i + 1 + rest.length = i + (rest.length + 1) := by omega
    by_cases h40 : b = 40
    · simp [scanLit, h40, ih, harith]
    · by_cases h41 : b = 41
      · cases st with
        | nil => simp [scanLit, h40, h41, ih, harith]
        | cons a st' => simp [scanLit, h40, h41, ih, harith]
      · by_cases hbs : b = 92 ∨ b = 13
        · simp [scanLit, h40, h41, hbs, ih, harith]
        · simp [scanLit, h40, h41, hbs, ih, harith]

theorem scanLit_bounds (text : List Nat) : ∀ (i : Nat) (esc st : List Nat),
    (∀ j ∈ esc, j < i) → (∀ j ∈ st, j < i) →
    (∀ j ∈ (scanLit i esc st text).1, j < i + text.length) ∧
    (∀ j ∈ (scanLit i esc st text).2, j < i + text.length) := by
  induction text with
  | nil =>
    intro i esc st he hs
    simp only [scanLit]
    exact ⟨fun j hj => by simpa using Nat.lt_of_lt_of_le (he j hj) (by omega),
           fun j hj => by simpa using Nat.lt_of_lt_of_le (hs j hj) (by omega)⟩
  | cons b rest ih =>
    intro i esc st he hs
    have hlen : i + (b :: rest).length = (i + 1) + rest.length := by simp; omega
    by_cases h40 : b = 40
    · rw [show scanLit i esc st (b :: rest) = scanLit (i + 1) esc (i :: st) rest by
        simp [scanLit, h40]]
      rw [hlen]
      exact ih (i + 1) esc (i :: st) (fun j hj => Nat.lt_succ_of_lt (he j hj))
        (by intro j hj; rcases List.mem_cons.1 hj with h | h
            · omega
            · exact Nat.lt_succ_of_lt (hs j h))
    · by_cases h41 : b = 41
      · cases st with
        | nil =>
          rw [show scanLit i esc [] (b :: rest) = scanLit (i + 1) (esc ++ [i]) [] rest by
            simp [scanLit, h40, h41]]
          rw [hlen]
          exact ih (i + 1) (esc ++ [i]) []
            (by intro j hj; rcases List.mem_append.1 hj with h | h
                · exact Nat.lt_succ_of_lt (he j h)
                · simp at h; omega)
            (by simp)
        | cons a st' =>
          rw [show scanLit i esc (a :: st') (b :: rest) = scanLit (i + 1) esc st' rest by
            simp [scanLit, h40, h41]]
          rw [hlen]
          exact ih (i + 1) esc st' (fun j hj => Nat.lt_succ_of_lt (he j hj))
            (fun j hj => Nat.lt_succ_of_lt (hs j (List.mem_cons_of_mem a hj)))
      · by_cases hbs : b = 92 ∨ b = 13
        · rw [show scanLit i esc st (b :: rest) = scanLit (i + 1) (esc ++ [i]) st rest by
            rcases hbs with h | h <;> simp [scanLit, h40, h41, h]]
          rw [hlen]
          exact ih (i + 1) (esc ++ [i]) st
            (by intro j hj; rcases List.mem_append.1 hj with h | h
                · exact Nat.lt_succ_of_lt (he j h)
                · simp at h; omega)
            (fun j hj => Nat.lt_succ_of_lt (hs j hj))
        · rw [show scanLit i esc st (b :: rest) = scanLit (i + 1) esc st rest by
            push_neg at hbs
            simp [scanLit, h40, h41, hbs.1, hbs.2]]
          rw [hlen]
          exact ih (i + 1) esc st (fun j hj => Nat.lt_succ_of_lt (he j hj))
            (fun j hj => Nat.lt_succ_of_lt (hs j hj))

theorem scanLit_st_mem (text : List Nat) : ∀ (i : Nat) (esc st : List Nat),
    ∀ j ∈ (scanLit i esc st text).2,
      j ∈ st ∨ ∃ k, k < text.length ∧ j = i + k ∧ text.get? k = some 40 := by
  induction text with
  | nil => intro i esc st j hj; simp only [scanLit] at hj; exact Or.inl hj
  | cons b rest ih =>
    intro i esc st j hj
    by_cases h40 : b = 40
    · rw [show scanLit i esc st (b :: rest) = scanLit (i + 1) esc (i :: st) rest by
        simp [scanLit, h40]] at hj
      rcases ih (i + 1) esc (i :: st) j hj with h | ⟨k, hk, hjk, hget⟩
      · rcases List.mem_cons.1 h with h | h
        · exact Or.inr ⟨0, by simp [h, h40]⟩
        · exact Or.inl h
      · exact Or.inr ⟨k + 1, by simpa using hk, by omega, by simpa using hget⟩
    · by_cases h41 : b = 41
      · cases st with
        | nil =>
          rw [show scanLit i esc [] (b :: rest) = scanLit (i + 1) (esc ++ [i]) [] rest by
            simp [scanLit, h40, h41]] at hj
          rcases ih (i + 1) (esc ++ [i]) [] j hj with h | ⟨k, hk, hjk, hget⟩
          · simp at h
          · exact Or.inr ⟨k + 1, by simpa using hk, by omega, by simpa using hget⟩
        | cons a st' =>
          rw [show scanLit i esc (a :: st') (b :: rest) = scanLit (i + 1) esc st' rest by
            simp [scanLit, h40, h41]] at hj
          rcases ih (i + 1) esc st' j hj with h | ⟨k, hk, hjk, hget⟩
          · exact Or.inl (List.mem_cons_of_mem a h)
          · exact Or.inr ⟨k + 1, by simpa using hk, by omega, by simpa using hget⟩
      · have hstep : scanLit i esc st (b :: rest)
            = scanLit (i + 1) (if b = 92 ∨ b = 13 then esc ++ [i] else esc) st rest := by
          by_cases hbs : b = 92 ∨ b = 13
          · rcases hbs with h | h <;> simp [scanLit, h40, h41, h]
          · push_neg at hbs
            simp [scanLit, h40, h41, hbs.1, hbs.2, hbs]
        rw [hstep] at hj
        rcases ih (i + 1) _ st j hj with h | ⟨k, hk, hjk, hget⟩
        · exact Or.inl h
        · exact Or.inr ⟨k + 1, by simpa using hk, by omega, by simpa using hget⟩

/-- Characterization of the escape indices collected by the scan of
`write_string`: an index lands in `escape_indice` during the scan iff its byte
is a backslash, a CR, or a close parenthesis scanned with an empty
parenthesis stack. -/
theorem scanLit_esc_char (text : List Nat) : ∀ j,
    j ∈ (scanLit 0 [] [] text).1 ↔
      ∃ b, text.get? j = some b ∧
        (b = 92 ∨ b = 13 ∨ (b = 41 ∧ (scanLit 0 [] [] (text.take j)).2 = [])) := by
  induction text using List.reverseRecOn with
  | nil => intro j; simp [scanLit]
  | append_singleton l b ih =>
    intro j
    have happ := scanLit_append l [b] 0 [] []
    have hbounds := scanLit_bounds l 0 [] [] (by simp) (by simp)
    rcases Nat.lt_trichotomy j l.length with hj | hj | hj
    · -- old index: nothing changes
      have htake : (l ++ [b]).take j = l.take j :=
        List.take_append_of_le_length (by omega)
      have hget : (l ++ [b]).get? j = l.get? j := List.get?_append hj
      have hmem : j ∈ (scanLit 0 [] [] (l ++ [b])).1 ↔ j ∈ (scanLit 0 [] [] l).1 := by
        rw [happ]
        have hne : j ≠ l.length := by omega
        rcases hc : (scanLit 0 [] [] l) with ⟨e, s⟩
        cases s with
        | nil =>
          by_cases h40 : b = 40
          · simp [scanLit, h40, hc]
          · by_cases h41 : b = 41
            · simp [scanLit, h40, h41, hc, hne]
            · by_cases hbs : b = 92 ∨ b = 13
              · rcases hbs with h | h <;> simp [scanLit, h40, h41, h, hc, hne]
              · push_neg at hbs
                simp [scanLit, h40, h41, hbs.1, hbs.2, hc]
        | cons a s' =>
          by_cases h40 : b = 40
          · simp [scanLit, h40, hc]
          · by_cases h41 : b = 41
            · simp [scanLit, h40, h41, hc]
            · by_cases hbs : b = 92 ∨ b = 13
              · rcases hbs with h | h <;> simp [scanLit, h40, h41, h, hc, hne]
              · push_neg at hbs
                simp [scanLit, h40, h41, hbs.1, hbs.2, hc]
      rw [hmem, ih j, hget, htake]
    · -- the new index
      subst hj
      have htake : (l ++ [b]).take l.length = l := by simp
      have hget : (l ++ [b]).get? l.length = some b := by
        rw [List.get?_append_right (le_refl _)]
        simp
      have hnotold : l.length ∉ (scanLit 0 [] [] l).1 := fun h => by
        have := hbounds.1 _ h; omega
      constructor
      · intro hmem
        rw [happ] at hmem
        rcases hc : (scanLit 0 [] [] l) with ⟨e, s⟩
        rw [hc] at hmem
        refine ⟨b, hget, ?_⟩
        cases s with
        | nil =>
          by_cases h40 : b = 40
          · rw [show scanLit (0 + l.length) e [] [b] = (e, [l.length]) by
              simp [scanLit, h40]] at hmem
            exact absurd hmem (by rw [hc] at hnotold; simpa using hnotold)
          · by_cases h41 : b = 41
            · right; right
              exact ⟨h41, by rw [htake, hc]⟩
            · by_cases hbs : b = 92 ∨ b = 13
              · tauto
              · push_neg at hbs
                rw [show scanLit (0 + l.length) e [] [b] = (e, []) by
                  simp [scanLit, h40, h41, hbs.1, hbs.2]] at hmem
                exact absurd hmem (by rw [hc] at hnotold; simpa using hnotold)
        | cons a s' =>
          by_cases h40 : b = 40
          · rw [show scanLit (0 + l.length) e (a :: s') [b] = (e, l.length :: a :: s') by
              simp [scanLit, h40]] at hmem
            exact absurd hmem (by rw [hc] at hnotold; simpa using hnotold)
          · by_cases h41 : b = 41
            · rw [show scanLit (0 + l.length) e (a :: s') [b] = (e, s') by
                simp [scanLit, h40, h41]] at hmem
              exact absurd hmem (by rw [hc] at hnotold; simpa using hnotold)
            · by_cases hbs : b = 92 ∨ b = 13
              · tauto
              · push_neg at hbs
                rw [show scanLit (0 + l.length) e (a :: s') [b] = (e, a :: s') by
                  simp [scanLit, h40, h41, hbs.1, hbs.2]] at hmem
                exact absurd hmem (by rw [hc] at hnotold; simpa using hnotold)
      · rintro ⟨b', hb', hcond⟩
        rw [hget] at hb'
        injection hb' with hb'
        subst hb'
        rw [happ]
        rcases hc : (scanLit 0 [] [] l) with ⟨e, s⟩
        rw [htake, hc] at hcond
        rcases hcond with h | h | ⟨h41, hs⟩
        · subst h
          cases s with
          | nil => simp [scanLit]
          | cons a s' => simp [scanLit]
        · subst h
          cases s with
          | nil => simp [scanLit]
          | cons a s' => simp [scanLit]
        · subst h41
          simp only at hs
          subst hs
          simp [scanLit]
    · -- beyond the end: both sides false
      have hbounds2 := scanLit_bounds (l ++ [b]) 0 [] [] (by simp) (by simp)
      constructor
      · intro hmem
        have := hbounds2.1 _ hmem
        simp at this
        omega
      · rintro ⟨b', hb', -⟩
        obtain ⟨hlt, -⟩ := List.get?_eq_some.1 hb'
        simp at hlt
        omega

theorem flatMap_emitLit_empty : ∀ (text : List Nat) (i : Nat),
    (idxFrom i text).flatMap (emitLitByte []) = text := by
  intro text
  induction text with
  | nil => intro i; simp [idxFrom]
  | cons b rest ih => intro i; simp [idxFrom, emitLitByte, ih]

/-- C2: the literal-string encoder wraps the text in parentheses and escapes,
with a preceding backslash, exactly the bytes at the indices collected by the
scan; and an index is collected iff its byte is a backslash, a CR, a `)`
scanned with no unmatched `(` before it, or a `(` left unmatched at the end of
the scan.  Balanced pairs (a `(` that is popped and the `)` that popped it)
satisfy none of these conditions and are copied verbatim. -/
theorem c2_literal_escapes (text : List Nat) :
    encLiteral text
      = [40] ++ (idxFrom 0 text).flatMap (emitLitByte (escSetOf text)) ++ [41] ∧
    ∀ i b, text.get? i = some b →
      (i ∈ escSetOf text ↔
        (b = 92 ∨ b = 13 ∨ (b = 41 ∧ (scanLit 0 [] [] (text.take i)).2 = [])
          ∨ (b = 40 ∧ i ∈ (scanLit 0 [] [] text).2))) := by
  constructor
  · by_cases h : escSetOf text = []
    · simp [encLiteral, h, flatMap_emitLit_empty]
    · simp [encLiteral, h]
  · intro i b hget
    unfold escSetOf
    simp only [List.mem_append, List.mem_reverse]
    constructor
    · intro hmem
      rcases hmem with hmem | hmem
      · obtain ⟨b', hget', hcond⟩ := (scanLit_esc_char text i).1 hmem
        rw [hget] at hget'
        injection hget' with hb
        subst hb
        tauto
      · rcases scanLit_st_mem text 0 [] [] i hmem with h | ⟨k, hk, hik, hgk⟩
        · simp at h
        · have hik' : i = k := by omega
          subst hik'
          rw [hget] at hgk
          injection hgk with hb
          exact Or.inr (Or.inr (Or.inr ⟨hb, hmem⟩))
    · intro hcond
      rcases hcond with h | h | ⟨h41, hst⟩ | ⟨h40, hmem⟩
      · exact Or.inl ((scanLit_esc_char text i).2 ⟨b, hget, Or.inl h⟩)
      · exact Or.inl ((scanLit_esc_char text i).2 ⟨b, hget, Or.inr (Or.inl h)⟩)
      · exact Or.inl ((scanLit_esc_char text i).2 ⟨b, hget, Or.inr (Or.inr ⟨h41, hst⟩)⟩)
      · exact Or.inr hmem

theorem c2_witness :
    (([41, 40, 92, 13] : List Nat).get? 0 = some 41) ∧
    ((0 : Nat) ∈ escSetOf [41, 40, 92, 13] ↔
      ((41 : Nat) = 92 ∨ (41 : Nat) = 13
        ∨ ((41 : Nat) = 41 ∧ (scanLit 0 [] [] (([41, 40, 92, 13] : List Nat).take 0)).2 = [])
        ∨ ((41 : Nat) = 40 ∧ 0 ∈ (scanLit 0 [] [] ([41, 40, 92, 13] : List Nat)).2))) :=
  ⟨by decide, (c2_literal_escapes [41, 40, 92, 13]).2 0 41 (by decide)⟩

/-- C3 counterexample: the literal string `"text((\r)"` does NOT encode to
`(text\(\(\r\))` as the claim states; the second `(` and the `)` form a
balanced pair and stay unescaped. -/
theorem c3_counterexample :
    encLiteral (ascii "text((\r)") ≠ ascii "(text\\(\\(\\r\\))" := by decide

/-- C3 as amended: `"text((\r)"` encodes to `(text\((\r))` — only the first
`(` (left unmatched at end of scan) and the CR are escaped; the second `(`
and the final `)` form a balanced pair and are copied verbatim. -/
theorem c3_literal_example :
    encLiteral (ascii "text((\r)") = ascii "(text\\((\\r))" := by decide

set_option maxRecDepth 8192 in
/-- C4: the name encoder emits `/` then each byte through the per-byte
encoding, and a byte is emitted as `#` plus two uppercase hex digits of its
value iff it lies in the claimed delimiter/whitespace set or outside
`[33, 126]`; every other byte is emitted unchanged. -/
theorem c4_name_escapes (name : List Nat) (b : Nat) (hb : b < 256) :
    writeNameBytes name = 47 :: name.flatMap escNameByte ∧
    (claimHexEsc (escNameByte b) b ↔ (b ∈ claimDelims ∨ b < 33 ∨ 126 < b)) ∧
    (¬(b ∈ claimDelims ∨ b < 33 ∨ 126 < b) → escNameByte b = [b]) := by
  refine ⟨rfl, ?_⟩
  revert hb
  revert b
  decide

theorem c4_witness :
    ((40 : Nat) < 256) ∧
    (writeNameBytes [] = 47 :: ([] : List Nat).flatMap escNameByte ∧
     (claimHexEsc (escNameByte 40) 40 ↔ ((40 : Nat) ∈ claimDelims ∨ (40 : Nat) < 33 ∨ 126 < (40 : Nat))) ∧
     (¬((40 : Nat) ∈ claimDelims ∨ (40 : Nat) < 33 ∨ 126 < (40 : Nat)) → escNameByte 40 = [40])) :=
  ⟨by decide, c4_name_escapes [] 40 (by decide)⟩

/-! ### Subsection partitioning of the classic cross-reference table -/

theorem maximalRuns_cons_ne_nil (x : Nat) (l : List Nat) : maximalRuns (x :: l) ≠ [] := by
  cases l with
  | nil => simp [maximalRuns]
  | cons y rest =>
    simp only [maximalRuns]
    cases h : maximalRuns (y :: rest) with
    | nil => simp
    | cons r rs => by_cases hy : y = x + 1 <;> simp [hy]

theorem maximalRuns_range' : ∀ (n : Nat), 1 ≤ n → ∀ (s : Nat) (ys : List Nat),
    (∀ y ∈ ys.head?, s + n < y) →
    maximalRuns (List.range' s n ++ ys) = List.range' s n :: maximalRuns ys := by
  intro n
  induction n with
  | zero => omega
  | succ m ih =>
    intro _ s ys hgap
    cases m with
    | zero =>
      cases ys with
      | nil => simp [maximalRuns]
      | cons y r =>
        have hy : s + 1 < y := hgap y (by simp)
        have hne := maximalRuns_cons_ne_nil y r
        cases h : maximalRuns (y :: r) with
        | nil => exact absurd h hne
        | cons rr rs =>
          have hyne : ¬ (y = s + 1) := by omega
          simp [List.range', maximalRuns, h, hyne]
    | succ k =>
      have hrw : List.range' s (k + 2) ++ ys = s :: (s + 1) :: (List.range' (s + 2) k ++ ys) := by
        simp [List.range']
      have htail := ih (by omega) (s + 1) ys (by intro y hy; have := hgap y hy; omega)
      have hcons : List.range' (s + 1) (k + 1) ++ ys
          = (s + 1) :: (List.range' (s + 2) k ++ ys) := by
        simp [List.range']
      rw [hcons] at htail
      rw [hrw]
      cases h : maximalRuns ((s + 1) :: (List.range' (s + 2) k ++ ys)) with
      | nil => exact absurd h (maximalRuns_cons_ne_nil _ _)
      | cons r rs =>
        rw [h] at htail
        injection htail with hr hrs
        subst hr
        subst hrs
        simp [maximalRuns, h, List.range']

theorem chainLt_head_all {x : Nat} {l : List Nat} (h : List.Chain' (· < ·) (x :: l)) :
    ∀ y ∈ l, x < y := by
  have hp : List.Pairwise (· < ·) (x :: l) := List.chain'_iff_pairwise.1 h
  exact (List.pairwise_cons.1 hp).1

theorem xrefLoop_run (get : Nat → Option XrefEntry) :
    ∀ (keys : List Nat) (start base n : Nat),
    base = (if start = 0 then 1 else start) → 1 ≤ base → 1 ≤ n →
    List.Chain' (· < ·) keys → (∀ k ∈ keys, base + n ≤ k) →
    (xrefLoop get start (base + n) ((List.range' base n).map get) keys).map idsOf
        = maximalRuns (List.range' base n ++ keys) ∧
    ∀ sec ∈ xrefLoop get start (base + n) ((List.range' base n).map get) keys,
      sec.2 = (idsOf sec).map get := by
  intro keys
  induction keys with
  | nil =>
    intro start base n hb hb1 hn hchain hge
    constructor
    · rw [show xrefLoop get start (base + n) ((List.range' base n).map get) [] =
        [(start, (List.range' base n).map get)] from rfl]
      rw [show List.range' base n ++ ([] : List Nat) = List.range' base n by simp] at *
      rw [show maximalRuns (List.range' base n)
          = List.range' base n :: maximalRuns [] by
        have := maximalRuns_range' n hn base [] (by simp)
        simpa using this]
      simp [idsOf, ← hb, maximalRuns]
    · intro sec hsec
      simp only [xrefLoop, List.mem_singleton] at hsec
      subst hsec
      simp [idsOf, ← hb]
  | cons oid rest ih =>
    intro start base n hb hb1 hn hchain hge
    have hk : base + n ≤ oid := hge oid (by simp)
    by_cases heq : oid = base + n
    · subst heq
      have hstep : xrefLoop get start (base + n) ((List.range' base n).map get)
            ((base + n) :: rest)
          = xrefLoop get start (base + (n + 1)) ((List.range' base (n + 1)).map get) rest := by
        rw [xrefLoop, if_neg (by omega)]
        have h1 : base + n + 1 = base + (n + 1) := by omega
        have h2 : (List.range' base n).map get ++ [get (base + n)]
            = (List.range' base (n + 1)).map get := by
          rw [List.range'_concat]
          simp
        rw [h1, h2]
      have hrest := ih start base (n + 1) hb hb1 (by omega) hchain.tail
        (by intro k hkr
            have := chainLt_head_all hchain k hkr
            omega)
      rw [hstep]
      refine ⟨?_, hrest.2⟩
      rw [hrest.1]
      congr 1
      rw [List.range'_concat]
      simp
    · have hstep : xrefLoop get start (base + n) ((List.range' base n).map get) (oid :: rest)
          = (start, (List.range' base n).map get)
              :: xrefLoop get oid (oid + 1) [get oid] rest := by
        rw [xrefLoop]
        rw [if_pos (by omega)]
      have hone : [get oid] = (List.range' oid 1).map get := by simp
      have hrest := ih oid oid 1 (by rw [if_neg (by omega)]) (by omega) (by omega) hchain.tail
        (by intro k hkr
            have := chainLt_head_all hchain k hkr
            omega)
      rw [hone] at hstep
      rw [hstep]
      constructor
      · simp only [List.map_cons]
        rw [hrest.1]
        rw [maximalRuns_range' n hn base (oid :: rest) (by intro y hy; simp at hy; omega)]
        rw [show List.range' oid 1 ++ rest = oid :: rest by simp]
        congr 1
        simp [idsOf, ← hb]
      · intro sec hsec
        rcases List.mem_cons.1 hsec with h | h
        · subst h
          simp [idsOf, ← hb]
        · exact hrest.2 sec h

set_option maxRecDepth 2048 in
/-- C5 (amended: the present ids must be nonzero): consuming a sorted set of
nonzero present ids, the emitted subsections partition exactly that id set
into maximal runs of consecutive ids — a gap always closes the subsection and
the next one starts at the next present id, with one head-only subsection
`0 1` first when the run of ids does not start at 1; the accumulated entries
of each subsection are exactly the lookups of its ids (the synthetic free head
is an extra entry of the `start = 0` subsection only, never an extra id); in
particular for ids `{1, 2, 3, 9}` the headers are `0 4` and `9 1`. -/
theorem c5_partition (get : Nat → Option XrefEntry) (keys : List Nat)
    (h1 : List.Chain' (· < ·) keys) (h2 : ∀ k ∈ keys, 1 ≤ k) :
    (xrefSections get keys).map idsOf
        = (if keys.head? = some 1 then ([] : List (List Nat)) else [[]])
          ++ maximalRuns keys ∧
    (∀ sec ∈ xrefSections get keys, sec.2 = (idsOf sec).map get) ∧
    (xrefSections get [1, 2, 3, 9]).map (fun sec => (sec.1, declaredLen sec))
        = [(0, 4), (9, 1)] := by
  have hscen : (xrefSections get [1, 2, 3, 9]).map (fun sec => (sec.1, declaredLen sec))
      = [(0, 4), (9, 1)] := rfl
  cases keys with
  | nil =>
    refine ⟨rfl, ?_, hscen⟩
    intro sec hsec
    simp only [xrefSections, xrefLoop, List.mem_singleton] at hsec
    subst hsec
    rfl
  | cons k rest =>
    have hk1 : 1 ≤ k := h2 k (by simp)
    have hbound : ∀ j ∈ rest, k + 1 ≤ j := by
      intro j hj
      have := chainLt_head_all h1 j hj
      omega
    by_cases hk : k = 1
    · subst hk
      have hstep : xrefSections get (1 :: rest)
          = xrefLoop get 0 (1 + 1) ((List.range' 1 1).map get) rest := by
        rw [xrefSections, xrefLoop, if_neg (by omega)]
        simp
      have hrun := xrefLoop_run get rest 0 1 1 (by simp) (by omega) (by omega)
        h1.tail (by intro j hj; have := hbound j hj; omega)
      constructor
      · rw [hstep, hrun.1]
        rw [show List.range' 1 1 ++ rest = 1 :: rest by simp]
        simp
      · refine ⟨?_, hscen⟩
        intro sec hsec
        rw [hstep] at hsec
        exact hrun.2 sec hsec
    · have hstep : xrefSections get (k :: rest)
          = (0, []) :: xrefLoop get k (k + 1) ((List.range' k 1).map get) rest := by
        rw [xrefSections, xrefLoop, if_pos (by omega)]
        simp
      have hrun := xrefLoop_run get rest k k 1 (by rw [if_neg (by omega)]) (by omega)
        (by omega) h1.tail (by intro j hj; have := hbound j hj; omega)
      constructor
      · rw [hstep]
        simp only [List.map_cons, hrun.1]
        rw [show List.range' k 1 ++ rest = k :: rest by simp]
        have hh : ((k :: rest).head? = some 1) = False := by simp [hk]
        simp [hh, idsOf, hk]
      · refine ⟨?_, hscen⟩
        intro sec hsec
        rw [hstep] at hsec
        rcases List.mem_cons.1 hsec with h | h
        · subst h
          rfl
        · exact hrun.2 sec h

/-- C5 counterexample: when id 0 is present in the map, the writer emits the
two subsection headers `0 1` and `0 2` — the entry of id 0 is presented as
object number 1's entry, so the subsections do not partition the present id
set `{0}` (they cover the absent id 1 and never id 0). -/
theorem c5_counterexample :
    (xrefSections (xGet [(0, XrefEntry.normal 5 0)]) [0]).map
        (fun sec => (sec.1, declaredLen sec)) = [(0, 1), (0, 2)] ∧
    ((xrefSections (xGet [(0, XrefEntry.normal 5 0)]) [0]).map idsOf).flatten ≠ [0] ∧
    (writeXrefTable initWS [(0, XrefEntry.normal 5 0)]).out
        = ascii "xref\n0 1\n0000000000 65535 f \n0 2\n0000000000 65535 f \n0000000005 00000 n \n" := by
  refine ⟨rfl, by decide, by decide⟩

theorem c5_witness :
    (List.Chain' (· < ·) ([2, 5] : List Nat)) ∧ (∀ k ∈ ([2, 5] : List Nat), 1 ≤ k) ∧
    ((xrefSections g5 [2, 5]).map idsOf
        = (if ([2, 5] : List Nat).head? = some 1 then ([] : List (List Nat)) else [[]])
          ++ maximalRuns [2, 5] ∧
      (∀ sec ∈ xrefSections g5 [2, 5], sec.2 = (idsOf sec).map g5) ∧
      (xrefSections g5 [1, 2, 3, 9]).map (fun sec => (sec.1, declaredLen sec))
          = [(0, 4), (9, 1)]) :=
  ⟨by norm_num [List.chain'_cons], by decide,
    c5_partition g5 [2, 5] (by norm_num [List.chain'_cons]) (by decide)⟩

/-! ### Entry-line format of the classic cross-reference table -/

theorem decGo_length_le : ∀ (fuel n k : Nat), n ≤ fuel → n < 10 ^ k →
    (decGo fuel n).length ≤ k := by
  intro fuel
  induction fuel with
  | zero => intro n k h1 h2; simp [decGo]
  | succ f ih =>
    intro n k h1 h2
    by_cases h0 : n = 0
    · simp [decGo, h0]
    · cases k with
      | zero => simp at h2; omega
      | succ k' =>
        rw [decGo, if_neg h0]
        have hdiv : n / 10 < n := Nat.div_lt_self (by omega) (by omega)
        have hih := ih (n / 10) k' (by omega)
          (by
            have h10 : (10 : Nat) ^ (k' + 1) = 10 ^ k' * 10 := pow_succ 10 k'
            rw [h10] at h2
            exact Nat.div_lt_of_lt_mul (by omega))
        simp only [List.length_append, List.length_singleton]
        omega

theorem decRepr_length_le (n k : Nat) (hk : 1 ≤ k) (h : n < 10 ^ k) :
    (decRepr n).length ≤ k := by
  by_cases h0 : n = 0
  · simp [decRepr, h0]
    omega
  · rw [decRepr, if_neg h0]
    exact decGo_length_le n n k (le_refl n) h

theorem padLeft0_length (w : Nat) (ds : List Nat) (h : ds.length ≤ w) :
    (padLeft0 w ds).length = w := by
  simp [padLeft0]
  omega

theorem entryLine_length (off gen kind : Nat) (hoff : off < 10 ^ 10)
    (hgen : gen < 10 ^ 5) : (entryLine off gen kind).length = 20 := by
  have h1 := padLeft0_length 10 (decRepr off) (decRepr_length_le off 10 (by omega) hoff)
  have h2 := padLeft0_length 5 (decRepr gen) (decRepr_length_le gen 5 (by omega) hgen)
  simp [entryLine, h1, h2]

theorem sectionLines_entries_length (l : List (Option XrefEntry))
    (h : ∀ e ∈ l, entryOk e) :
    ((l.map lineOfEntry).flatten).length = 20 * l.countP emitsLine := by
  induction l with
  | nil => simp
  | cons e rest ih =>
    have hrest := ih (fun x hx => h x (List.mem_cons_of_mem e hx))
    have he := h e (by simp)
    have hfree : freeLine.length = 20 := by decide
    cases e with
    | none =>
      simp only [List.map_cons, List.flatten_cons, List.length_append, hrest,
        List.countP_cons, lineOfEntry, hfree]
      simp [emitsLine]
      ring
    | some ent =>
      cases ent with
      | normal off gen =>
        obtain ⟨h1, h2⟩ := he
        simp only [List.map_cons, List.flatten_cons, List.length_append, hrest,
          List.countP_cons, lineOfEntry, entryLine_length off gen 110 h1 h2]
        simp [emitsLine]
        ring
      | compressed c i =>
        simp only [List.map_cons, List.flatten_cons, List.length_append, hrest,
          List.countP_cons, lineOfEntry]
        simp [emitsLine]
      | free =>
        simp only [List.map_cons, List.flatten_cons, List.length_append, hrest,
          List.countP_cons, lineOfEntry]
        simp [emitsLine]

/-- C6 (amended): every `Normal` entry renders as one 20-byte line — 10-digit
zero-padded offset, space, 5-digit zero-padded generation, space, type
character, trailing space, line terminator — and a missing lookup renders as
the free line `0 65535 f`; but an entry present as `Free` or `Compressed`
emits no line at all, so a subsection emits one line per declared count only
counting its `Normal` and missing entries plus the synthetic head. -/
theorem c6_entry_lines (off gen : Nat) (sec : Nat × List (Option XrefEntry))
    (hoff : off < 10 ^ 10) (hgen : gen < 10 ^ 5) (hsec : ∀ e ∈ sec.2, entryOk e) :
    c6Concl off gen sec := by
  refine ⟨entryLine_length off gen 110 hoff hgen, rfl,
    padLeft0_length 10 _ (decRepr_length_le off 10 (by omega) hoff),
    padLeft0_length 5 _ (decRepr_length_le gen 5 (by omega) hgen),
    rfl, fun o g => rfl, rfl, fun c i => rfl, ?_, ?_⟩
  · simp [renderSection, sectionLines, List.append_assoc]
  · have h := sectionLines_entries_length sec.2 hsec
    have hfree : freeLine.length = 20 := by decide
    by_cases h0 : sec.1 = 0
    · simp [sectionLines, h0, hfree, h]
      ring
    · simp [sectionLines, h0, h]

/-- C6 counterexample: an entry present as `Free` emits no line — for the map
with the single entry `1 ↦ Free` the table declares `0 2` but renders only the
synthetic head's single 20-byte line. -/
theorem c6_counterexample :
    (writeXrefTable initWS [(1, XrefEntry.free)]).out
        = ascii "xref\n0 2\n0000000000 65535 f \n" ∧
    (xrefSections (xGet [(1, XrefEntry.free)]) (sortedKeys [(1, XrefEntry.free)])).map
        declaredLen = [2] ∧
    (sectionLines (0, [some XrefEntry.free])).length = 20 ∧
    (20 : Nat) ≠ 20 * declaredLen (0, [some XrefEntry.free]) := by
  refine ⟨by decide, by decide, by decide, by decide⟩

theorem c6_witness :
    ((5 : Nat) < 10 ^ 10) ∧ ((0 : Nat) < 10 ^ 5) ∧
    (∀ e ∈ ([some (XrefEntry.normal 5 0), none] : List (Option XrefEntry)), entryOk e) ∧
    c6Concl 5 0 (0, [some (XrefEntry.normal 5 0), none]) :=
  ⟨by norm_num, by norm_num, by decide,
    c6_entry_lines 5 0 (0, [some (XrefEntry.normal 5 0), none]) (by norm_num) (by norm_num)
      (by decide)⟩

/-- C7 (amended: the trailer dictionary is rendered `<</Size 1>>`, with no
space after `<<` or before `>>`): saving a document with an empty object table
and `max_id = 0` produces exactly the header line, the one-subsection
cross-reference table with only the synthetic free head, `trailer` plus the
serialized `<</Size 1>>` dictionary, and the `startxref` footer pointing at
the byte offset of the `xref` keyword (the header's length). -/
theorem c7_empty_save (v : List Nat) :
    (save ⟨v, [], [], 0⟩).out
      = ascii "%PDF-" ++ v ++ [10]
        ++ ascii "xref\n0 1\n0000000000 65535 f \ntrailer\n<</Size 1>>"
        ++ [10] ++ ascii "startxref" ++ [10] ++ decRepr (v.length + 6) ++ [10] ++ ascii "%%EOF" := by
  simp only [save, saveLoop, writeXrefTable, sortedKeys, xrefLoopSt, emitSectionSt,
    emitEntriesSt, writeTrailer, trailerDict, dictSet, wr, initWS, declaredLen,
    writeObject, writeDictEntries, recordContents, needSep, List.map_nil, List.foldr_nil,
    List.nil_append, List.append_nil]
  norm_num
  have hc : (ascii "%PDF-").length + (v.length + 1) = v.length + 6 := by simp [ascii]; omega
  rw [hc]
  simp [ascii, writeNameBytes, escNameByte, nameEscSet, uhexDigit,
    intRepr, freeLine, entryLine, padLeft0, List.append_assoc,
    show decRepr 0 = [48] from rfl, show decRepr 1 = [49] from rfl,
    show decRepr 65535 = [54, 53, 53, 51, 53] from rfl, show (Int.toNat 1) = 1 from rfl]

/-- C7 counterexample: the claim's trailer bytes `<< /Size 1 >>` (with inner
spaces) do not match the writer's output, which is `<</Size 1>>`. -/
theorem c7_counterexample :
    (save ⟨ascii "1.5", [], [], 0⟩).out
        ≠ ascii "%PDF-1.5\nxref\n0 1\n0000000000 65535 f \ntrailer\n<< /Size 1 >>\nstartxref\n9\n%%EOF" ∧
    (save ⟨ascii "1.5", [], [], 0⟩).out
        = ascii "%PDF-1.5\nxref\n0 1\n0000000000 65535 f \ntrailer\n<</Size 1>>\nstartxref\n9\n%%EOF" := by
  refine ⟨by decide, by decide⟩

@[simp] theorem wr_out (s : WState) (b : List Nat) : (wr s b).out = s.out ++ b := rfl
@[simp] theorem wr_count (s : WState) (b : List Nat) :
    (wr s b).count = s.count + b.length := rfl
@[simp] theorem wr_cmap (s : WState) (b : List Nat) : (wr s b).cmap = s.cmap := rfl
@[simp] theorem wr_clog (s : WState) (b : List Nat) : (wr s b).clog = s.clog := rfl
@[simp] theorem wr_xref (s : WState) (b : List Nat) : (wr s b).xref = s.xref := rfl
@[simp] theorem wr_xlog (s : WState) (b : List Nat) : (wr s b).xlog = s.xlog := rfl

@[simp] theorem cupd_nil (oid : Option (Nat × Nat)) (c : Nat) (m : Option CMap) :
    cupd oid c [] m = m := by
  cases m with
  | none => rfl
  | some m' => cases oid <;> rfl

@[simp] theorem clogAdd_nil (oid : Option (Nat × Nat)) (c : Nat) :
    clogAdd oid c [] = [] := by
  cases oid <;> rfl

theorem cupd_append (oid : Option (Nat × Nat)) (c : Nat)
    (sp1 sp2 : List (Nat × Nat × List Nat)) (m : Option CMap) :
    cupd oid c (sp1 ++ sp2) m = cupd oid c sp2 (cupd oid c sp1 m) := by
  cases m with
  | none => cases oid <;> rfl
  | some m' =>
    cases oid with
    | none => rfl
    | some i => simp [cupd, List.foldl_append]

theorem clogAdd_append (oid : Option (Nat × Nat)) (c : Nat)
    (sp1 sp2 : List (Nat × Nat × List Nat)) :
    clogAdd oid c (sp1 ++ sp2) = clogAdd oid c sp1 ++ clogAdd oid c sp2 := by
  cases oid <;> simp [clogAdd]

theorem cupd_shift (oid : Option (Nat × Nat)) (c a : Nat)
    (sp : List (Nat × Nat × List Nat)) (m : Option CMap) :
    cupd oid c (shiftSpans a sp) m = cupd oid (c + a) sp m := by
  cases m with
  | none => cases oid <;> rfl
  | some m' =>
    cases oid with
    | none => rfl
    | some i =>
      simp only [cupd, shiftSpans, List.foldl_map]
      have hfun : (fun (x : CMap) (y : Nat × Nat × List Nat) =>
            cmInsert x i ((c + (a + y.1)) % 2 ^ 32, (c + (a + y.2.1)) % 2 ^ 32))
          = fun (x : CMap) (y : Nat × Nat × List Nat) =>
              cmInsert x i ((c + a + y.1) % 2 ^ 32, (c + a + y.2.1) % 2 ^ 32) := by
        funext x y
        have h1 : c + (a + y.1) = c + a + y.1 := by omega
        have h2 : c + (a + y.2.1) = c + a + y.2.1 := by omega
        rw [h1, h2]
      rw [hfun]

theorem clogAdd_shift (oid : Option (Nat × Nat)) (c a : Nat)
    (sp : List (Nat × Nat × List Nat)) :
    clogAdd oid c (shiftSpans a sp) = clogAdd oid (c + a) sp := by
  cases oid with
  | none => rfl
  | some i =>
    simp only [clogAdd, shiftSpans, List.map_map]
    congr 1
    funext q
    simp
    constructor <;> omega

theorem cupd_isSome (oid : Option (Nat × Nat)) (c : Nat)
    (sp : List (Nat × Nat × List Nat)) (m : Option CMap) :
    (cupd oid c sp m).isSome = m.isSome := by
  cases m with
  | none => cases oid <;> rfl
  | some m' => cases oid <;> rfl

theorem frame_wr (o : Obj)
    (hw : ∀ (oid : Option (Nat × Nat)) (s : WState), writeObject oid s o = wr s (renderObj o))
    (hsp : spansObj o = []) : FrameObj o := by
  intro oid s
  rw [hw oid s, hsp]
  simp

theorem frameArr_nil (first : Bool) : FrameArr first [] := by
  intro oid s
  simp [writeArray, renderArr, spansArr]

theorem frameArr_cons (o : Obj) (rest : List Obj) (first : Bool)
    (h1 : FrameObj o) (h2 : FrameArr false rest) : FrameArr first (o :: rest) := by
  intro oid s
  have hs1 : ∃ s1, writeArray oid first s (o :: rest)
        = writeArray oid false (writeObject oid s1 o) rest ∧
      s1.out = s.out ++ (if first then ([] : List Nat) else if needSep o then [32] else []) ∧
      s1.count = s.count + (if first then ([] : List Nat) else if needSep o then [32] else []).length ∧
      s1.cmap = s.cmap ∧ s1.clog = s.clog ∧ s1.xref = s.xref ∧ s1.xlog = s.xlog := by
    by_cases hf : first
    · exact ⟨s, by simp [writeArray, hf], by simp [hf], by simp [hf], rfl, rfl, rfl, rfl⟩
    · by_cases hn : needSep o
      · exact ⟨wr s [32], by simp [writeArray, hf, hn], by simp [hf, hn], by simp [hf, hn],
          rfl, rfl, rfl, rfl⟩
      · exact ⟨s, by simp [writeArray, hf, hn], by simp [hf, hn], by simp [hf, hn],
          rfl, rfl, rfl, rfl⟩
  obtain ⟨s1, heq, ho1, hc1, hm1, hl1, hr1, hg1⟩ := hs1
  obtain ⟨ho2, hc2, hr2, hg2, hl2, hm2⟩ := h1 oid s1
  obtain ⟨ho3, hc3, hr3, hg3, hl3, hm3⟩ := h2 oid (writeObject oid s1 o)
  have hrender : renderArr first (o :: rest)
      = (if first then ([] : List Nat) else if needSep o then [32] else [])
        ++ renderObj o ++ renderArr false rest := by
    simp [renderArr]
  have hspans : spansArr first (o :: rest)
      = shiftSpans (if first then ([] : List Nat) else if needSep o then [32] else []).length
          (spansObj o)
        ++ shiftSpans ((if first then ([] : List Nat) else if needSep o then [32] else []).length
            + (renderObj o).length) (spansArr false rest) := by
    simp [spansArr]
  have hsome2 : (writeObject oid s1 o).cmap.isSome = s.cmap.isSome := by
    rw [hm2, cupd_isSome, hm1]
  refine ⟨?_, ?_, ?_, ?_, ?_, ?_⟩
  · rw [heq, ho3, ho2, ho1, hrender]
    simp [List.append_assoc]
  · rw [heq, hc3, hc2, hc1, hrender]
    simp [List.length_append]
    omega
  · rw [heq, hr3, hr2, hr1]
  · rw [heq, hg3, hg2, hg1]
  · rw [heq, hl3, hl2, hl1, hsome2, hm1, hspans]
    by_cases hsome : s.cmap.isSome
    · rw [if_pos hsome, if_pos hsome, if_pos hsome]
      rw [clogAdd_append, clogAdd_shift, clogAdd_shift]
      rw [hc2, hc1]
      simp [List.append_assoc]
      congr 1
      omega
    · rw [if_neg hsome, if_neg hsome, if_neg hsome]
      simp
  · rw [heq, hm3, hm2, hm1, hc2, hc1, hspans]
    rw [cupd_append, cupd_shift, cupd_shift]
    congr 1
    omega

theorem frameEntries_nil : FrameEntries [] := by
  intro oid s
  simp [writeDictEntries, renderEntries, spansEntries]

theorem frameEntries_cons (k : List Nat) (v : Obj) (rest : List (List Nat × Obj))
    (h1 : FrameObj v) (h2 : FrameEntries rest) : FrameEntries ((k, v) :: rest) := by
  intro oid s
  have hstep : writeDictEntries oid s ((k, v) :: rest)
      = writeDictEntries oid
          (if k = ascii "Contents" then
            recordContents oid
              ((if needSep v then wr (wr s (writeNameBytes k)) [32]
                else wr s (writeNameBytes k)).count % 2 ^ 32)
              (writeObject oid
                (if needSep v then wr (wr s (writeNameBytes k)) [32]
                 else wr s (writeNameBytes k)) v)
              (renderObj v)
           else
            writeObject oid
              (if needSep v then wr (wr s (writeNameBytes k)) [32]
               else wr s (writeNameBytes k)) v)
          rest := by
    simp only [writeDictEntries]
  set s2 : WState := if needSep v then wr (wr s (writeNameBytes k)) [32]
      else wr s (writeNameBytes k) with hs2
  set p1 : Nat := (writeNameBytes k).length
      + (if needSep v then ([32] : List Nat) else []).length with hp1
  have hs2out : s2.out = s.out ++ (writeNameBytes k ++ (if needSep v then [32] else [])) := by
    by_cases hn : needSep v <;> simp [hs2, hn]
  have hs2count : s2.count = s.count + p1 := by
    by_cases hn : needSep v <;> simp [hs2, hp1, hn] <;> omega
  have hm2 : s2.cmap = s.cmap := by by_cases hn : needSep v <;> simp [hs2, hn]
  have hl2 : s2.clog = s.clog := by by_cases hn : needSep v <;> simp [hs2, hn]
  have hr2 : s2.xref = s.xref := by by_cases hn : needSep v <;> simp [hs2, hn]
  have hg2 : s2.xlog = s.xlog := by by_cases hn : needSep v <;> simp [hs2, hn]
  set s3 : WState := writeObject oid s2 v with hs3
  obtain ⟨ho3, hc3, hr3, hg3, hl3, hm3⟩ := h1 oid s2
  set p2 : Nat := p1 + (renderObj v).length with hp2
  have hc3' : s3.count = s.count + p2 := by rw [← hs3] at hc3; rw [hc3, hs2count, hp2]; omega
  have hm3' : s3.cmap = cupd oid (s.count + p1) (spansObj v) s.cmap := by
    rw [← hs3] at hm3
    rw [hm3, hm2, hs2count]
  have hsome3 : s3.cmap.isSome = s.cmap.isSome := by rw [hm3', cupd_isSome]
  set s4 : WState := if k = ascii "Contents" then
      recordContents oid (s2.count % 2 ^ 32) s3 (renderObj v)
      else s3 with hs4
  have hstep' : writeDictEntries oid s ((k, v) :: rest) = writeDictEntries oid s4 rest := hstep
  have hs4out : s4.out = s3.out := by
    by_cases hk : k = ascii "Contents"
    · rw [hs4, if_pos hk]
      cases hoid : oid with
      | none => rfl
      | some i =>
        cases hcm : s3.cmap with
        | none => simp [recordContents, hcm]
        | some m3 => simp [recordContents, hcm]
    · rw [hs4, if_neg hk]
  have hs4count : s4.count = s3.count := by
    by_cases hk : k = ascii "Contents"
    · rw [hs4, if_pos hk]
      cases hoid : oid with
      | none => rfl
      | some i =>
        cases hcm : s3.cmap with
        | none => simp [recordContents, hcm]
        | some m3 => simp [recordContents, hcm]
    · rw [hs4, if_neg hk]
  have hs4xref : s4.xref = s3.xref := by
    by_cases hk : k = ascii "Contents"
    · rw [hs4, if_pos hk]
      cases hoid : oid with
      | none => rfl
      | some i =>
        cases hcm : s3.cmap with
        | none => simp [recordContents, hcm]
        | some m3 => simp [recordContents, hcm]
    · rw [hs4, if_neg hk]
  have hs4xlog : s4.xlog = s3.xlog := by
    by_cases hk : k = ascii "Contents"
    · rw [hs4, if_pos hk]
      cases hoid : oid with
      | none => rfl
      | some i =>
        cases hcm : s3.cmap with
        | none => simp [recordContents, hcm]
        | some m3 => simp [recordContents, hcm]
    · rw [hs4, if_neg hk]
  have hs4clog : s4.clog = s3.clog
      ++ (if s.cmap.isSome then
            clogAdd oid s.count
              (if k = ascii "Contents" then [(p1, p2, renderObj v)] else [])
          else []) := by
    by_cases hk : k = ascii "Contents"
    · rw [hs4, if_pos hk, if_pos hk]
      cases hoid : oid with
      | none => simp [recordContents, clogAdd]
      | some i =>
        cases hcm : s3.cmap with
        | none =>
          have : s.cmap.isSome = false := by rw [← hsome3, hcm]; rfl
          simp [recordContents, hcm, this]
        | some m3 =>
          have : s.cmap.isSome = true := by rw [← hsome3, hcm]; rfl
          simp [recordContents, hcm, this, clogAdd, hs2count, hc3', hp2]
    · rw [hs4, if_neg hk, if_neg hk]
      simp
  have hs4cmap : s4.cmap
      = cupd oid s.count (if k = ascii "Contents" then [(p1, p2, renderObj v)] else [])
          s3.cmap := by
    by_cases hk : k = ascii "Contents"
    · rw [hs4, if_pos hk, if_pos hk]
      cases hoid : oid with
      | none =>
        cases hcm : s3.cmap with
        | none => simp [recordContents, cupd, hcm]
        | some m3 => simp [recordContents, cupd, hcm]
      | some i =>
        cases hcm : s3.cmap with
        | none => simp [recordContents, cupd, hcm]
        | some m3 => simp [recordContents, cupd, hcm, hs2count, hc3', hp2]
    · rw [hs4, if_neg hk, if_neg hk]
      simp
  have hsome4 : s4.cmap.isSome = s.cmap.isSome := by
    rw [hs4cmap, cupd_isSome, hsome3]
  obtain ⟨ho5, hc5, hr5, hg5, hl5, hm5⟩ := h2 oid s4
  have hrender : renderEntries ((k, v) :: rest)
      = writeNameBytes k ++ (if needSep v then [32] else []) ++ renderObj v
        ++ renderEntries rest := by
    simp [renderEntries]
  have hspans : spansEntries ((k, v) :: rest)
      = shiftSpans p1 (spansObj v)
        ++ (if k = ascii "Contents" then [(p1, p2, renderObj v)] else [])
        ++ shiftSpans p2 (spansEntries rest) := by
    simp [spansEntries, hp1, hp2]
  rw [← hs3] at ho3 hc3 hr3 hg3 hl3
  refine ⟨?_, ?_, ?_, ?_, ?_, ?_⟩
  · rw [hstep', ho5, hs4out, ho3, hs2out, hrender]
    simp [List.append_assoc]
  · rw [hstep', hc5, hs4count, hc3', hrender]
    simp [List.length_append, hp2, hp1]
    omega
  · rw [hstep', hr5, hs4xref, hr3, hr2]
  · rw [hstep', hg5, hs4xlog, hg3, hg2]
  · rw [hstep', hl5, hs4clog, hl3, hl2, hsome4, hs4count, hc3', hm2, hs2count, hspans]
    by_cases hsome : s.cmap.isSome
    · rw [if_pos hsome, if_pos hsome, if_pos hsome, if_pos hsome]
      rw [clogAdd_append, clogAdd_append, clogAdd_shift, clogAdd_shift]
      simp [List.append_assoc]
    · rw [if_neg hsome, if_neg hsome, if_neg hsome, if_neg hsome]
      simp
  · rw [hstep', hm5, hs4cmap, hm3', hs4count, hc3', hspans]
    rw [cupd_append, cupd_append, cupd_shift, cupd_shift]

mutual

theorem frameObj_all : ∀ (o : Obj), FrameObj o
  | .null => frame_wr _ (fun _ _ => by simp [writeObject, renderObj]) rfl
  | .boolean b => frame_wr _ (fun _ _ => by cases b <;> simp [writeObject, renderObj]) rfl
  | .integer i => frame_wr _ (fun _ _ => by simp [writeObject, renderObj]) rfl
  | .real t => frame_wr _ (fun _ _ => by simp [writeObject, renderObj]) rfl
  | .name n => frame_wr _ (fun _ _ => by simp [writeObject, renderObj]) rfl
  | .string t f => frame_wr _ (fun _ _ => by simp [writeObject, renderObj]) rfl
  | .ref id => frame_wr _ (fun _ _ => by simp [writeObject, renderObj]) rfl
  | .array xs => by
    have harr := frameArr_all true xs
    intro oid s
    obtain ⟨ho, hc, hr, hg, hl, hm⟩ := harr oid (wr s (ascii "["))
    have hw : writeObject oid s (.array xs)
        = wr (writeArray oid true (wr s (ascii "[")) xs) (ascii "]") := by
      simp [writeObject]
    refine ⟨?_, ?_, ?_, ?_, ?_, ?_⟩
    · rw [hw, wr_out, ho, wr_out]
      simp [renderObj, List.append_assoc]
    · rw [hw, wr_count, hc, wr_count]
      simp [renderObj, List.length_append]
      omega
    · rw [hw, wr_xref, hr, wr_xref]
    · rw [hw, wr_xlog, hg, wr_xlog]
    · rw [hw, wr_clog, hl, wr_clog, wr_cmap, wr_count]
      rw [show spansObj (.array xs) = shiftSpans (ascii "[").length (spansArr true xs)
        from rfl]
      rw [clogAdd_shift]
    · rw [hw, wr_cmap, hm, wr_cmap, wr_count]
      rw [show spansObj (.array xs) = shiftSpans (ascii "[").length (spansArr true xs)
        from rfl]
      rw [cupd_shift]
  | .dict d => by
    have hent := frameEntries_all d
    intro oid s
    obtain ⟨ho, hc, hr, hg, hl, hm⟩ := hent oid (wr s (ascii "<<"))
    have hw : writeObject oid s (.dict d)
        = wr (writeDictEntries oid (wr s (ascii "<<")) d) (ascii ">>") := by
      simp [writeObject]
    refine ⟨?_, ?_, ?_, ?_, ?_, ?_⟩
    · rw [hw, wr_out, ho, wr_out]
      simp [renderObj, List.append_assoc]
    · rw [hw, wr_count, hc, wr_count]
      simp [renderObj, List.length_append]
      omega
    · rw [hw, wr_xref, hr, wr_xref]
    · rw [hw, wr_xlog, hg, wr_xlog]
    · rw [hw, wr_clog, hl, wr_clog, wr_cmap, wr_count]
      rw [show spansObj (.dict d) = shiftSpans (ascii "<<").length (spansEntries d)
        from rfl]
      rw [clogAdd_shift]
    · rw [hw, wr_cmap, hm, wr_cmap, wr_count]
      rw [show spansObj (.dict d) = shiftSpans (ascii "<<").length (spansEntries d)
        from rfl]
      rw [cupd_shift]
  | .stream d c => by
    have hent := frameEntries_all d
    intro oid s
    obtain ⟨ho, hc, hr, hg, hl, hm⟩ := hent oid (wr s (ascii "<<"))
    have hw : writeObject oid s (.stream d c)
        = wr (wr (wr (wr (writeDictEntries oid (wr s (ascii "<<")) d) (ascii ">>"))
            (ascii "stream\n")) c) (ascii "endstream") := by
      simp [writeObject]
    refine ⟨?_, ?_, ?_, ?_, ?_, ?_⟩
    · rw [hw]
      simp only [wr_out, ho]
      simp [renderObj, List.append_assoc]
    · rw [hw]
      simp only [wr_count, hc]
      simp [renderObj, List.length_append]
      omega
    · rw [hw]
      simp only [wr_xref, hr]
    · rw [hw]
      simp only [wr_xlog, hg]
    · rw [hw]
      simp only [wr_clog, hl, wr_cmap, wr_count]
      rw [show spansObj (.stream d c) = shiftSpans (ascii "<<").length (spansEntries d)
        from rfl]
      rw [clogAdd_shift]
    · rw [hw]
      simp only [wr_cmap, hm, wr_count]
      rw [show spansObj (.stream d c) = shiftSpans (ascii "<<").length (spansEntries d)
        from rfl]
      rw [cupd_shift]

theorem frameArr_all : ∀ (first : Bool) (xs : List Obj), FrameArr first xs
  | first, [] => frameArr_nil first
  | first, o :: rest => frameArr_cons o rest first (frameObj_all o) (frameArr_all false rest)

theorem frameEntries_all : ∀ (d : List (List Nat × Obj)), FrameEntries d
  | [] => frameEntries_nil
  | (k, v) :: rest => frameEntries_cons k v rest (frameObj_all v) (frameEntries_all rest)

end

/-! ### Span coverage: every recorded Contents span covers exactly the bytes
of its value -/

theorem byteSlice_shift (X Y : List Nat) (a b : Nat) :
    byteSlice (X.length + a) (X.length + b) (X ++ Y) = byteSlice a b Y := by
  unfold byteSlice
  rw [List.drop_append_eq_append_drop]
  rw [List.drop_eq_nil_of_le (by omega)]
  have h1 : X.length + a - X.length = a := by omega
  have h2 : X.length + b - (X.length + a) = b - a := by omega
  rw [h1, h2, List.nil_append]

theorem byteSlice_left_of_le (Y Z : List Nat) (a b : Nat) (h : b ≤ Y.length) :
    byteSlice a b (Y ++ Z) = byteSlice a b Y := by
  unfold byteSlice
  rw [List.drop_append_eq_append_drop, List.take_append_eq_append_take]
  have h0 : b - a - (Y.drop a).length = 0 := by
    simp [List.length_drop]
    omega
  rw [h0, List.take_zero, List.append_nil]

theorem byteSlice_embed (X R Z : List Nat) (a b : Nat) (hb : b ≤ R.length) :
    byteSlice (X.length + a) (X.length + b) (X ++ (R ++ Z)) = byteSlice a b R := by
  rw [byteSlice_shift, byteSlice_left_of_le _ _ _ _ hb]

theorem spansOk_shift_embed (X R Z : List Nat) (sp : List (Nat × Nat × List Nat))
    (h : ∀ q ∈ sp, q.2.1 = q.1 + q.2.2.length ∧ q.2.1 ≤ R.length ∧
      byteSlice q.1 q.2.1 R = q.2.2) :
    ∀ q ∈ shiftSpans X.length sp, q.2.1 = q.1 + q.2.2.length ∧
      q.2.1 ≤ (X ++ (R ++ Z)).length ∧ byteSlice q.1 q.2.1 (X ++ (R ++ Z)) = q.2.2 := by
  intro q hq
  simp only [shiftSpans, List.mem_map] at hq
  obtain ⟨q0, hq0, rfl⟩ := hq
  obtain ⟨h1, h2, h3⟩ := h q0 hq0
  refine ⟨by simp; omega, by simp; omega, ?_⟩
  rw [byteSlice_embed X R Z q0.1 q0.2.1 h2]
  exact h3

mutual

theorem spansOk_all : ∀ (o : Obj), SpansOk o
  | .null => by intro q hq; simp [spansObj] at hq
  | .boolean b => by intro q hq; simp [spansObj] at hq
  | .integer i => by intro q hq; simp [spansObj] at hq
  | .real t => by intro q hq; simp [spansObj] at hq
  | .name n => by intro q hq; simp [spansObj] at hq
  | .string t f => by intro q hq; simp [spansObj] at hq
  | .ref id => by intro q hq; simp [spansObj] at hq
  | .array xs => by
    have h := spansOkArr_all true xs
    intro q hq
    rw [show spansObj (.array xs) = shiftSpans (ascii "[").length (spansArr true xs)
      from rfl] at hq
    have := spansOk_shift_embed (ascii "[") (renderArr true xs) (ascii "]")
      (spansArr true xs) h q hq
    rwa [show ascii "[" ++ (renderArr true xs ++ ascii "]") = renderObj (.array xs) by
      simp [renderObj, List.append_assoc]] at this
  | .dict d => by
    have h := spansOkEntries_all d
    intro q hq
    rw [show spansObj (.dict d) = shiftSpans (ascii "<<").length (spansEntries d)
      from rfl] at hq
    have := spansOk_shift_embed (ascii "<<") (renderEntries d) (ascii ">>")
      (spansEntries d) h q hq
    rwa [show ascii "<<" ++ (renderEntries d ++ ascii ">>") = renderObj (.dict d) by
      simp [renderObj, List.append_assoc]] at this
  | .stream d c => by
    have h := spansOkEntries_all d
    intro q hq
    rw [show spansObj (.stream d c) = shiftSpans (ascii "<<").length (spansEntries d)
      from rfl] at hq
    have := spansOk_shift_embed (ascii "<<") (renderEntries d)
      (ascii ">>" ++ ascii "stream\n" ++ c ++ ascii "endstream")
      (spansEntries d) h q hq
    rwa [show ascii "<<" ++ (renderEntries d
          ++ (ascii ">>" ++ ascii "stream\n" ++ c ++ ascii "endstream"))
        = renderObj (.stream d c) by
      simp [renderObj, List.append_assoc]] at this

theorem spansOkArr_all : ∀ (first : Bool) (xs : List Obj), SpansOkArr first xs
  | first, [] => by intro q hq; simp [spansArr] at hq
  | first, o :: rest => by
    have h1 := spansOk_all o
    have h2 := spansOkArr_all false rest
    intro q hq
    rw [show spansArr first (o :: rest)
        = shiftSpans (if first then ([] : List Nat) else if needSep o then [32] else []).length
            (spansObj o)
          ++ shiftSpans ((if first then ([] : List Nat) else if needSep o then [32] else []).length
              + (renderObj o).length) (spansArr false rest) by simp [spansArr]] at hq
    have hr : renderArr first (o :: rest)
        = (if first then ([] : List Nat) else if needSep o then [32] else [])
          ++ (renderObj o ++ renderArr false rest) := by
      simp [renderArr, List.append_assoc]
    rcases List.mem_append.1 hq with hm | hm
    · have := spansOk_shift_embed
        (if first then ([] : List Nat) else if needSep o then [32] else [])
        (renderObj o) (renderArr false rest) (spansObj o) h1 q hm
      rwa [← hr] at this
    · have hlen : (if first then ([] : List Nat) else if needSep o then [32] else []).length
          + (renderObj o).length
          = ((if first then ([] : List Nat) else if needSep o then [32] else [])
              ++ renderObj o).length := by simp
      rw [hlen] at hm
      have := spansOk_shift_embed
        ((if first then ([] : List Nat) else if needSep o then [32] else []) ++ renderObj o)
        (renderArr false rest) [] (spansArr false rest) h2 q hm
      rwa [List.append_nil, show ((if first then ([] : List Nat) else if needSep o then [32] else [])
          ++ renderObj o) ++ renderArr false rest = renderArr first (o :: rest) by
        simp [renderArr, List.append_assoc]] at this

theorem spansOkEntries_all : ∀ (d : List (List Nat × Obj)), SpansOkEntries d
  | [] => by intro q hq; simp [spansEntries] at hq
  | (k, v) :: rest => by
    have h1 := spansOk_all v
    have h2 := spansOkEntries_all rest
    intro q hq
    rw [show spansEntries ((k, v) :: rest)
        = shiftSpans ((writeNameBytes k).length
              + (if needSep v then ([32] : List Nat) else []).length) (spansObj v)
          ++ ((if k = ascii "Contents" then
                [((writeNameBytes k).length + (if needSep v then ([32] : List Nat) else []).length,
                  (writeNameBytes k).length + (if needSep v then ([32] : List Nat) else []).length
                    + (renderObj v).length, renderObj v)] else [])
            ++ shiftSpans ((writeNameBytes k).length
                + (if needSep v then ([32] : List Nat) else []).length
                + (renderObj v).length) (spansEntries rest)) by
      simp [spansEntries, List.append_assoc]] at hq
    have hr : renderEntries ((k, v) :: rest)
        = (writeNameBytes k ++ (if needSep v then ([32] : List Nat) else []))
          ++ (renderObj v ++ renderEntries rest) := by
      simp [renderEntries, List.append_assoc]
    have hp1 : (writeNameBytes k).length + (if needSep v then ([32] : List Nat) else []).length
        = (writeNameBytes k ++ (if needSep v then ([32] : List Nat) else [])).length := by
      simp
    rcases List.mem_append.1 hq with hm | hm
    · rw [hp1] at hm
      have := spansOk_shift_embed
        (writeNameBytes k ++ (if needSep v then ([32] : List Nat) else []))
        (renderObj v) (renderEntries rest) (spansObj v) h1 q hm
      rwa [← hr] at this
    · rcases List.mem_append.1 hm with hm' | hm'
      · by_cases hk : k = ascii "Contents"
        · rw [if_pos hk] at hm'
          simp only [List.mem_singleton] at hm'
          subst hm'
          refine ⟨by simp, ?_, ?_⟩
          · rw [hr]
            simp
            omega
          · rw [hr, hp1]
            simp [byteSlice]
        · rw [if_neg hk] at hm'
          simp at hm'
      · have hlen : (writeNameBytes k).length
            + (if needSep v then ([32] : List Nat) else []).length + (renderObj v).length
            = ((writeNameBytes k ++ (if needSep v then ([32] : List Nat) else []))
                ++ renderObj v).length := by simp [Nat.add_assoc]
        rw [hlen] at hm'
        have := spansOk_shift_embed
          ((writeNameBytes k ++ (if needSep v then ([32] : List Nat) else [])) ++ renderObj v)
          (renderEntries rest) [] (spansEntries rest) h2 q hm'
        rwa [List.append_nil, show ((writeNameBytes k
              ++ (if needSep v then ([32] : List Nat) else [])) ++ renderObj v)
              ++ renderEntries rest = renderEntries ((k, v) :: rest) by
          simp [renderEntries, List.append_assoc]] at this

end

mutual

theorem spansLen_obj : ∀ (o : Obj), (spansObj o).length = countContents o
  | .null => rfl
  | .boolean _ => rfl
  | .integer _ => rfl
  | .real _ => rfl
  | .name _ => rfl
  | .string _ _ => rfl
  | .ref _ => rfl
  | .array xs => by simp [spansObj, countContents, shiftSpans, spansLen_arr true xs]
  | .dict d => by simp [spansObj, countContents, shiftSpans, spansLen_entries d]
  | .stream d c => by simp [spansObj, countContents, shiftSpans, spansLen_entries d]

theorem spansLen_arr : ∀ (first : Bool) (xs : List Obj),
    (spansArr first xs).length = countContentsArr xs
  | _, [] => rfl
  | first, o :: rest => by
    simp [spansArr, countContentsArr, shiftSpans, spansLen_obj o, spansLen_arr false rest]

theorem spansLen_entries : ∀ (d : List (List Nat × Obj)),
    (spansEntries d).length = countContentsEntries d
  | [] => rfl
  | (k, v) :: rest => by
    by_cases hk : k = ascii "Contents" <;>
      simp [spansEntries, countContentsEntries, shiftSpans, hk, spansLen_obj v,
        spansLen_entries rest] <;> omega

end

/-- C8: with the Contents byte-map active, serializing an object inside the
indirect object `oid` appends to the insertion log exactly one record per
dictionary key equal to `Contents` (at any nesting depth), against `oid`, with
start/stop the byte counter right before and right after writing that key's
value; the recorded span slices out of the produced output exactly the bytes
of that value; and with the map absent nothing is recorded and the map stays
absent.  The source stores both ends as `u32`, so the spans are stated under
the hypothesis that the counter stays below `2 ^ 32` throughout the call,
making the truncation the identity. -/
theorem c8_contents_spans (oid : Nat × Nat) (s : WState) (o : Obj) (m : CMap)
    (hm : s.cmap = some m) (hwf : s.count = s.out.length)
    (hbound : s.count + (renderObj o).length < 2 ^ 32) : c8Concl oid s o := by
  obtain ⟨ho, hc, hr, hg, hl, hmm⟩ := frameObj_all o (some oid) s
  refine ⟨?_, spansLen_obj o, ?_, ?_⟩
  · rw [hl, hm]
    simp only [Option.isSome_some, if_true, clogAdd]
    congr 1
    apply List.map_congr_left
    intro q hq
    obtain ⟨h1, h2, h3⟩ := spansOk_all o q hq
    have hb1 : (s.count + q.1) % 2 ^ 32 = s.count + q.1 := Nat.mod_eq_of_lt (by omega)
    have hb2 : (s.count + q.2.1) % 2 ^ 32 = s.count + q.2.1 := Nat.mod_eq_of_lt (by omega)
    rw [hb1, hb2]
  · intro q hq
    obtain ⟨h1, h2, h3⟩ := spansOk_all o q hq
    refine ⟨h1, ?_⟩
    rw [ho, hwf, byteSlice_shift]
    exact h3
  · intro oid' s' hnone
    obtain ⟨ho', hc', hr', hg', hl', hm'⟩ := frameObj_all o oid' s'
    rw [hl', hnone, hm', hnone]
    refine ⟨by simp, ?_⟩
    cases oid' <;> rfl

theorem c8_witness :
    cwS.cmap = some [] ∧ cwS.count = cwS.out.length ∧
    cwS.count + (renderObj cwObj).length < 2 ^ 32 ∧ c8Concl (7, 0) cwS cwObj :=
  ⟨rfl, rfl, by decide, c8_contents_spans (7, 0) cwS cwObj [] rfl rfl (by decide)⟩

/-! ### Overwrite semantics of the Contents byte-map -/

theorem cmKeys_insert (m : CMap) (k : Nat × Nat) (v : Nat × Nat) :
    (cmInsert m k v).map Prod.fst
      = if (m.map Prod.fst).contains k then m.map Prod.fst
        else m.map Prod.fst ++ [k] := by
  by_cases h : (m.map Prod.fst).contains k
  · rw [if_pos h]
    unfold cmInsert
    rw [if_pos h, List.map_map]
    have hfun : (Prod.fst ∘ fun p => if p.1 = k then (k, v) else p)
        = (Prod.fst : (Nat × Nat) × Nat × Nat → Nat × Nat) := by
      funext p
      by_cases hp : p.1 = k <;> simp [hp]
    rw [hfun]
  · rw [if_neg h]
    unfold cmInsert
    rw [if_neg h, List.map_append]
    rfl

theorem cmLookup_of_not_contains (m : CMap) (k : Nat × Nat)
    (h : (m.map Prod.fst).contains k = false) : cmLookup m k = none := by
  induction m with
  | nil => rfl
  | cons p m' ih =>
    simp only [List.map_cons, List.contains_cons, Bool.or_eq_false_iff] at h
    obtain ⟨h1, h2⟩ := h
    have hne : ¬ (p.1 = k) := by
      intro he
      rw [he] at h1
      simp at h1
    simp only [cmLookup, List.find?]
    rw [show (decide (p.1 = k)) = false from by simp [hne]]
    exact ih h2

theorem cmLookup_mapReplace (m : CMap) (k v : Nat × Nat)
    (h : (m.map Prod.fst).contains k = true) :
    cmLookup (m.map (fun p => if p.1 = k then (k, v) else p)) k = some v := by
  induction m with
  | nil => simp at h
  | cons p m' ih =>
    by_cases hp : p.1 = k
    · simp [cmLookup, List.find?, hp]
    · have h' : (m'.map Prod.fst).contains k = true := by
        simp only [List.map_cons, List.contains_cons, Bool.or_eq_true] at h
        rcases h with h1 | h1
        · have hkk : k = p.1 := by simpa using h1
          exact absurd hkk.symm hp
        · exact h1
      simp only [List.map_cons, if_neg hp, cmLookup, List.find?]
      rw [show (decide (p.1 = k)) = false from by simp [hp]]
      exact ih h'

theorem cmLookup_mapReplace_other (m : CMap) (k v k' : Nat × Nat) (hne : k' ≠ k) :
    cmLookup (m.map (fun p => if p.1 = k then (k, v) else p)) k' = cmLookup m k' := by
  induction m with
  | nil => rfl
  | cons p m' ih =>
    by_cases hp : p.1 = k
    · have hpk : ¬ (p.1 = k') := by
        rw [hp]
        exact fun he => hne he.symm
      simp only [List.map_cons, if_pos hp, cmLookup, List.find?]
      rw [show (decide (k = k')) = false from by simp [Ne.symm hne]]
      rw [show (decide (p.1 = k')) = false from by simp [hpk]]
      exact ih
    · simp only [List.map_cons, if_neg hp, cmLookup, List.find?]
      cases hd : decide (p.1 = k') with
      | true => rfl
      | false => exact ih

theorem cmLookup_insert_self (m : CMap) (k v : Nat × Nat) :
    cmLookup (cmInsert m k v) k = some v := by
  unfold cmInsert
  by_cases h : (m.map Prod.fst).contains k
  · rw [if_pos h]
    exact cmLookup_mapReplace m k v h
  · rw [if_neg h]
    have hn : m.find? (fun p => decide (p.1 = k)) = none := by
      have hl := cmLookup_of_not_contains m k (by simpa using h)
      unfold cmLookup at hl
      cases hf : m.find? (fun p => decide (p.1 = k)) with
      | none => rfl
      | some p =>
        rw [hf] at hl
        simp at hl
    unfold cmLookup
    rw [List.find?_append, hn]
    simp [List.find?]

theorem cmLookup_insert_other (m : CMap) (k v k' : Nat × Nat) (hne : k' ≠ k) :
    cmLookup (cmInsert m k v) k' = cmLookup m k' := by
  unfold cmInsert
  by_cases h : (m.map Prod.fst).contains k
  · rw [if_pos h]
    exact cmLookup_mapReplace_other m k v k' hne
  · rw [if_neg h]
    unfold cmLookup
    rw [List.find?_append]
    cases hf : m.find? (fun p => decide (p.1 = k')) with
    | some p => simp
    | none =>
      simp only [Option.none_or]
      rw [show List.find? (fun p => decide (p.1 = k')) [(k, v)] = none from by
        simp [List.find?, Ne.symm hne]]

theorem keysCount_zero_of_not_contains (l : List (Nat × Nat)) (a : Nat × Nat)
    (h : l.contains a = false) : l.count a = 0 := by
  induction l with
  | nil => rfl
  | cons b l' ih =>
    simp only [List.contains_cons, Bool.or_eq_false_iff] at h
    obtain ⟨h1, h2⟩ := h
    have hne : ¬ (b = a) := by
      intro he
      subst he
      simp at h1
    rw [List.count_cons, ih h2]
    simp [hne]

theorem cmCount_insert_le (m : CMap) (k v k' : Nat × Nat)
    (h : (m.map Prod.fst).count k' ≤ 1) :
    ((cmInsert m k v).map Prod.fst).count k' ≤ 1 := by
  rw [cmKeys_insert]
  by_cases hc : (m.map Prod.fst).contains k
  · rw [if_pos hc]
    exact h
  · rw [if_neg hc]
    rw [List.count_append]
    by_cases hk : k' = k
    · subst hk
      have h0 := keysCount_zero_of_not_contains (m.map Prod.fst) k' (by simpa using hc)
      rw [h0]
      simp [List.count_singleton]
    · have h1 : List.count k' [k] = 0 := by
        rw [List.count_eq_zero]
        simp [hk]
      rw [h1]
      omega

theorem cmLookup_foldl_last (i : Nat × Nat) (f : Nat × Nat × List Nat → Nat × Nat) :
    ∀ (l : List (Nat × Nat × List Nat)) (m : CMap),
    cmLookup (l.foldl (fun m' q => cmInsert m' i (f q)) m) i
      = (match l.getLast? with
         | some q => some (f q)
         | none => cmLookup m i) := by
  intro l
  induction l with
  | nil => intro m; rfl
  | cons q l' ih =>
    intro m
    rw [List.foldl_cons, ih]
    cases l' with
    | nil => simp [cmLookup_insert_self]
    | cons q2 l'' =>
      rw [List.getLast?_cons_cons]
      cases hx : (q2 :: l'').getLast? with
      | none =>
        exfalso
        rw [List.getLast?_eq_none_iff] at hx
        exact List.cons_ne_nil q2 l'' hx
      | some x => rfl

theorem cmCount_foldl_le (i : Nat × Nat) (f : Nat × Nat × List Nat → Nat × Nat) :
    ∀ (l : List (Nat × Nat × List Nat)) (m : CMap) (k' : Nat × Nat),
    (m.map Prod.fst).count k' ≤ 1 →
    (((l.foldl (fun m' q => cmInsert m' i (f q)) m).map Prod.fst).count k')
      ≤ 1 := by
  intro l
  induction l with
  | nil => intro m k' h; exact h
  | cons q l' ih =>
    intro m k' h
    rw [List.foldl_cons]
    exact ih _ k' (cmCount_insert_le m i _ k' h)

/-- C10: after serializing one object inside indirect object `oid` with the
Contents byte-map active, the map's entry for `oid` is exactly the span of the
last `Contents` value recorded within it (earlier recordings are overwritten)
with both ends reduced modulo `2 ^ 32` as the source's `as u32` casts store
them, or the previous entry when none was recorded; and the map keeps at most
one span per object id. -/
theorem c10_overwrite (oid : Nat × Nat) (s : WState) (o : Obj) (m : CMap)
    (hm : s.cmap = some m) : c10Concl oid s o m := by
  obtain ⟨-, -, -, -, -, hmm⟩ := frameObj_all o (some oid) s
  unfold c10Concl
  rw [hmm, hm]
  unfold cupd
  refine ⟨rfl, ?_, ?_⟩
  · simp only [Option.getD_some]
    exact cmLookup_foldl_last oid
      (fun q => ((s.count + q.1) % 2 ^ 32, (s.count + q.2.1) % 2 ^ 32)) (spansObj o) m
  · intro k' h
    simp only [Option.getD_some]
    exact cmCount_foldl_le oid
      (fun q => ((s.count + q.1) % 2 ^ 32, (s.count + q.2.1) % 2 ^ 32)) (spansObj o) m k' h

theorem c10_witness :
    cwS.cmap = some [] ∧ c10Concl (7, 0) cwS cwObj [] :=
  ⟨rfl, c10_overwrite (7, 0) cwS cwObj [] rfl⟩

theorem writeIndirect_frame (s : WState) (oid : Nat × Nat) (o : Obj) :
    (writeIndirect s oid o).out = s.out ++ renderIndirect oid o ∧
    (writeIndirect s oid o).count = s.count + (renderIndirect oid o).length ∧
    (writeIndirect s oid o).xref
        = xInsert s.xref oid.1 (.normal (s.count % 2 ^ 32) oid.2) ∧
    (writeIndirect s oid o).xlog
        = s.xlog ++ [(oid.1, XrefEntry.normal (s.count % 2 ^ 32) oid.2)] := by
  unfold writeIndirect
  obtain ⟨ho, hc, hr, hg, hl, hm⟩ := frameObj_all o (some oid)
    (wr { s with xref := xInsert s.xref oid.1 (.normal (s.count % 2 ^ 32) oid.2),
                 xlog := s.xlog ++ [(oid.1, XrefEntry.normal (s.count % 2 ^ 32) oid.2)] }
      (decRepr oid.1 ++ [32] ++ decRepr oid.2 ++ ascii " obj"
        ++ (if needSep o then [32] else [])))
  refine ⟨?_, ?_, ?_, ?_⟩
  · rw [wr_out, ho, wr_out]
    simp [renderIndirect, objHeaderBytes, objFooterBytes, List.append_assoc]
  · rw [wr_count, hc, wr_count]
    simp [renderIndirect, objHeaderBytes, objFooterBytes, List.length_append]
    omega
  · rw [wr_xref, hr, wr_xref]
  · rw [wr_xlog, hg, wr_xlog]

theorem saveLoop_frame : ∀ (L : List ((Nat × Nat) × Obj)) (s : WState),
    (saveLoop s L).out
        = s.out ++ ((L.filter (fun p => !skipObj p.2)).map
            (fun p => renderIndirect p.1 p.2)).flatten ∧
    (saveLoop s L).count
        = s.count + (((L.filter (fun p => !skipObj p.2)).map
            (fun p => renderIndirect p.1 p.2)).flatten).length ∧
    (saveLoop s L).xlog = s.xlog ++ xlogF s.count L ∧
    (saveLoop s L).xref
        = (xlogF s.count L).foldl (fun x e => xInsert x e.1 e.2) s.xref := by
  intro L
  induction L with
  | nil => intro s; simp [saveLoop, xlogF]
  | cons p rest ih =>
    intro s
    obtain ⟨oid, o⟩ := p
    by_cases hs : skipObj o
    · have hstep : saveLoop s ((oid, o) :: rest) = saveLoop s rest := by
        simp [saveLoop, hs]
      rw [hstep]
      obtain ⟨h1, h2, h3, h4⟩ := ih s
      refine ⟨?_, ?_, ?_, ?_⟩
      · rw [h1]
        simp [hs]
      · rw [h2]
        simp [hs]
      · rw [h3]
        simp [xlogF, hs]
      · rw [h4]
        simp [xlogF, hs]
    · have hstep : saveLoop s ((oid, o) :: rest) = saveLoop (writeIndirect s oid o) rest := by
        simp [saveLoop, hs]
      rw [hstep]
      obtain ⟨h1, h2, h3, h4⟩ := ih (writeIndirect s oid o)
      obtain ⟨w1, w2, w3, w4⟩ := writeIndirect_frame s oid o
      refine ⟨?_, ?_, ?_, ?_⟩
      · rw [h1, w1]
        simp [hs, List.append_assoc]
      · rw [h2, w2]
        simp [hs, List.length_append]
        omega
      · rw [h3, w4, w2]
        simp [xlogF, hs, List.append_assoc]
      · rw [h4, w3, w2]
        simp [xlogF, hs]

theorem emitEntriesSt_frame : ∀ (pend : List (Option XrefEntry)) (s : WState),
    (emitEntriesSt s pend).out = s.out ++ (pend.map lineOfEntry).flatten ∧
    (emitEntriesSt s pend).count = s.count + ((pend.map lineOfEntry).flatten).length ∧
    (emitEntriesSt s pend).xref = s.xref ∧ (emitEntriesSt s pend).xlog = s.xlog ∧
    (emitEntriesSt s pend).cmap = s.cmap ∧ (emitEntriesSt s pend).clog = s.clog := by
  intro pend
  induction pend with
  | nil => intro s; simp [emitEntriesSt]
  | cons e rest ih =>
    intro s
    cases e with
    | none =>
      have hstep : emitEntriesSt s (none :: rest) = emitEntriesSt (wr s freeLine) rest := by
        simp [emitEntriesSt]
      rw [hstep]
      obtain ⟨h1, h2, h3, h4, h5, h6⟩ := ih (wr s freeLine)
      refine ⟨?_, ?_, ?_, ?_, ?_, ?_⟩ <;>
        simp [h1, h2, h3, h4, h5, h6, lineOfEntry, List.append_assoc] <;> omega
    | some ent =>
      cases ent with
      | normal off gen =>
        have hstep : emitEntriesSt s (some (XrefEntry.normal off gen) :: rest)
            = emitEntriesSt (wr s (entryLine off gen 110)) rest := by
          simp [emitEntriesSt]
        rw [hstep]
        obtain ⟨h1, h2, h3, h4, h5, h6⟩ := ih (wr s (entryLine off gen 110))
        refine ⟨?_, ?_, ?_, ?_, ?_, ?_⟩ <;>
          simp [h1, h2, h3, h4, h5, h6, lineOfEntry, List.append_assoc] <;> omega
      | compressed c i =>
        have hstep : emitEntriesSt s (some (XrefEntry.compressed c i) :: rest)
            = emitEntriesSt s rest := by
          simp [emitEntriesSt]
        rw [hstep]
        obtain ⟨h1, h2, h3, h4, h5, h6⟩ := ih s
        refine ⟨?_, ?_, ?_, ?_, ?_, ?_⟩ <;>
          simp [h1, h2, h3, h4, h5, h6, lineOfEntry, List.append_assoc]
      | free =>
        have hstep : emitEntriesSt s (some XrefEntry.free :: rest)
            = emitEntriesSt s rest := by
          simp [emitEntriesSt]
        rw [hstep]
        obtain ⟨h1, h2, h3, h4, h5, h6⟩ := ih s
        refine ⟨?_, ?_, ?_, ?_, ?_, ?_⟩ <;>
          simp [h1, h2, h3, h4, h5, h6, lineOfEntry, List.append_assoc]

theorem emitSectionSt_frame (s : WState) (start : Nat) (pend : List (Option XrefEntry)) :
    (emitSectionSt s start pend).out = s.out ++ renderSection (start, pend) ∧
    (emitSectionSt s start pend).count = s.count + (renderSection (start, pend)).length ∧
    (emitSectionSt s start pend).xref = s.xref ∧ (emitSectionSt s start pend).xlog = s.xlog ∧
    (emitSectionSt s start pend).cmap = s.cmap ∧ (emitSectionSt s start pend).clog = s.clog := by
  have hstep : emitSectionSt s start pend
      = emitEntriesSt (if start = 0
          then wr (wr s (decRepr start ++ [32] ++ decRepr (declaredLen (start, pend)) ++ [10]))
            freeLine
          else wr s (decRepr start ++ [32] ++ decRepr (declaredLen (start, pend)) ++ [10]))
          pend := by
    unfold emitSectionSt
    by_cases h0 : start = 0 <;> simp [h0]
  by_cases h0 : start = 0
  · rw [hstep, if_pos h0]
    obtain ⟨h1, h2, h3, h4, h5, h6⟩ := emitEntriesSt_frame pend
      (wr (wr s (decRepr start ++ [32] ++ decRepr (declaredLen (start, pend)) ++ [10])) freeLine)
    refine ⟨?_, ?_, ?_, ?_, ?_, ?_⟩
    · rw [h1]
      simp [renderSection, h0, List.append_assoc]
    · rw [h2]
      simp [renderSection, h0, List.length_append]
      omega
    · rw [h3]
      rfl
    · rw [h4]
      rfl
    · rw [h5]
      rfl
    · rw [h6]
      rfl
  · rw [hstep, if_neg h0]
    obtain ⟨h1, h2, h3, h4, h5, h6⟩ := emitEntriesSt_frame pend
      (wr s (decRepr start ++ [32] ++ decRepr (declaredLen (start, pend)) ++ [10]))
    refine ⟨?_, ?_, ?_, ?_, ?_, ?_⟩
    · rw [h1]
      simp [renderSection, h0, List.append_assoc]
    · rw [h2]
      simp [renderSection, h0, List.length_append]
      omega
    · rw [h3]
      rfl
    · rw [h4]
      rfl
    · rw [h5]
      rfl
    · rw [h6]
      rfl

theorem xrefLoopSt_frame (x : XrefMap) : ∀ (keys : List Nat) (s : WState)
    (start current : Nat) (pend : List (Option XrefEntry)),
    (xrefLoopSt x s start current pend keys).out
        = s.out ++ ((xrefLoop (xGet x) start current pend keys).map renderSection).flatten ∧
    (xrefLoopSt x s start current pend keys).count
        = s.count + (((xrefLoop (xGet x) start current pend keys).map renderSection).flatten).length ∧
    (xrefLoopSt x s start current pend keys).xref = s.xref ∧
    (xrefLoopSt x s start current pend keys).xlog = s.xlog ∧
    (xrefLoopSt x s start current pend keys).cmap = s.cmap ∧
    (xrefLoopSt x s start current pend keys).clog = s.clog := by
  intro keys
  induction keys with
  | nil =>
    intro s start current pend
    have hstep : xrefLoopSt x s start current pend [] = emitSectionSt s start pend := rfl
    have hpure : xrefLoop (xGet x) start current pend [] = [(start, pend)] := rfl
    rw [hstep, hpure]
    obtain ⟨h1, h2, h3, h4, h5, h6⟩ := emitSectionSt_frame s start pend
    refine ⟨?_, ?_, ?_, ?_, ?_, ?_⟩ <;> simp [h1, h2, h3, h4, h5, h6]
  | cons oid rest ih =>
    intro s start current pend
    by_cases hne : oid ≠ current
    · have hstep : xrefLoopSt x s start current pend (oid :: rest)
          = xrefLoopSt x (emitSectionSt s start pend) oid (oid + 1) [xGet x oid] rest := by
        simp [xrefLoopSt, hne]
      have hpure : xrefLoop (xGet x) start current pend (oid :: rest)
          = (start, pend) :: xrefLoop (xGet x) oid (oid + 1) [xGet x oid] rest := by
        simp [xrefLoop, hne]
      rw [hstep, hpure]
      obtain ⟨e1, e2, e3, e4, e5, e6⟩ := emitSectionSt_frame s start pend
      obtain ⟨h1, h2, h3, h4, h5, h6⟩ := ih (emitSectionSt s start pend) oid (oid + 1) [xGet x oid]
      refine ⟨?_, ?_, ?_, ?_, ?_, ?_⟩ <;>
        simp [h1, h2, h3, h4, h5, h6, e1, e2, e3, e4, e5, e6, List.append_assoc] <;> omega
    · have hstep : xrefLoopSt x s start current pend (oid :: rest)
          = xrefLoopSt x s start (current + 1) (pend ++ [xGet x oid]) rest := by
        simp [xrefLoopSt, hne]
      have hpure : xrefLoop (xGet x) start current pend (oid :: rest)
          = xrefLoop (xGet x) start (current + 1) (pend ++ [xGet x oid]) rest := by
        simp [xrefLoop, hne]
      rw [hstep, hpure]
      exact ih s start (current + 1) (pend ++ [xGet x oid])

theorem writeXrefTable_frame (s : WState) (x : XrefMap) :
    (writeXrefTable s x).out = s.out ++ renderXref x ∧
    (writeXrefTable s x).count = s.count + (renderXref x).length ∧
    (writeXrefTable s x).xref = s.xref ∧ (writeXrefTable s x).xlog = s.xlog ∧
    (writeXrefTable s x).cmap = s.cmap ∧ (writeXrefTable s x).clog = s.clog := by
  unfold writeXrefTable renderXref
  obtain ⟨h1, h2, h3, h4, h5, h6⟩ :=
    xrefLoopSt_frame x (sortedKeys x) (wr s (ascii "xref" ++ [10])) 0 1 []
  rw [xrefSections] at *
  refine ⟨?_, ?_, ?_, ?_, ?_, ?_⟩ <;>
    simp [h1, h2, h3, h4, h5, h6, List.append_assoc] <;> omega

theorem writeTrailer_frame (s : WState) (doc : Doc) :
    (writeTrailer s doc).out = s.out ++ trailerBytes doc ∧
    (writeTrailer s doc).count = s.count + (trailerBytes doc).length ∧
    (writeTrailer s doc).xref = s.xref ∧ (writeTrailer s doc).xlog = s.xlog := by
  unfold writeTrailer
  obtain ⟨ho, hc, hr, hg, hl, hm⟩ := frameObj_all (.dict (trailerDict doc)) none
    { wr s (ascii "trailer" ++ [10]) with cmap := none }
  refine ⟨?_, ?_, ?_, ?_⟩
  · show (writeObject none { wr s (ascii "trailer" ++ [10]) with cmap := none }
      (.dict (trailerDict doc))).out = _
    rw [ho]
    simp [trailerBytes, List.append_assoc]
  · show (writeObject none { wr s (ascii "trailer" ++ [10]) with cmap := none }
      (.dict (trailerDict doc))).count = _
    rw [hc]
    simp [trailerBytes, List.length_append]
    omega
  · show (writeObject none { wr s (ascii "trailer" ++ [10]) with cmap := none }
      (.dict (trailerDict doc))).xref = _
    rw [hr]
    simp
  · show (writeObject none { wr s (ascii "trailer" ++ [10]) with cmap := none }
      (.dict (trailerDict doc))).xlog = _
    rw [hg]
    simp

theorem save_shape (doc : Doc) :
    (save doc).out = headerBytes doc ++ bodyBytes doc ++ renderXref (finalXrefOf doc)
        ++ trailerBytes doc ++ footerBytes doc ∧
    (save doc).xlog = xlogF (headerBytes doc).length doc.objects ∧
    (save doc).xref = finalXrefOf doc ∧
    (save doc).count = (save doc).out.length := by
  simp only [save]
  set sA : WState := { wr initWS (ascii "%PDF-" ++ doc.version ++ [10]) with cmap := some [] }
    with hsA
  set s2 : WState := saveLoop sA doc.objects with hs2
  set s3 : WState := writeXrefTable s2 s2.xref with hs3
  set s4 : WState := writeTrailer s3 doc with hs4
  have hA1 : sA.out = headerBytes doc := by simp [hsA, initWS, headerBytes]
  have hA2 : sA.count = (headerBytes doc).length := by simp [hsA, initWS, headerBytes]
  have hA3 : sA.xref = [] := by simp [hsA, initWS]
  have hA4 : sA.xlog = [] := by simp [hsA, initWS]
  obtain ⟨l1, l2, l3, l4⟩ := saveLoop_frame doc.objects sA
  rw [← hs2] at l1 l2 l3 l4
  have h2out : s2.out = headerBytes doc ++ bodyBytes doc := by
    rw [l1, hA1]
    rfl
  have h2count : s2.count = startOffOf doc := by
    rw [l2, hA2]
    rfl
  have h2xlog : s2.xlog = xlogF (headerBytes doc).length doc.objects := by
    rw [l3, hA4, hA2]
    simp
  have h2xref : s2.xref = finalXrefOf doc := by
    rw [l4, hA3, hA2]
    rfl
  obtain ⟨x1, x2, x3, x4, x5, x6⟩ := writeXrefTable_frame s2 s2.xref
  rw [← hs3] at x1 x2 x3 x4
  obtain ⟨t1, t2, t3, t4⟩ := writeTrailer_frame s3 doc
  rw [← hs4] at t1 t2 t3 t4
  refine ⟨?_, ?_, ?_, ?_⟩
  · rw [wr_out, t1, x1, h2out, h2xref, h2count]
    simp [footerBytes, List.append_assoc]
  · rw [wr_xlog, t4, x4, h2xlog]
  · rw [wr_xref, t3, x3, h2xref]
  · rw [wr_out, wr_count, t1, t2, x1, x2, h2out, h2count]
    have houtlen : (headerBytes doc ++ bodyBytes doc).length = startOffOf doc := by
      simp [startOffOf]
    simp [List.length_append, houtlen, startOffOf]
    omega

/-! ### C1: recorded offsets point at the emitted object headers -/

theorem sum_take_le (l : List Nat) : ∀ (i : Nat), (l.take i).sum ≤ l.sum := by
  induction l with
  | nil => intro i; simp
  | cons a rest ih =>
    intro i
    cases i with
    | zero => simp
    | succ j =>
      simp only [List.take_succ_cons, List.sum_cons]
      have := ih j
      omega

theorem byteSlice_full (l : List Nat) : byteSlice 0 l.length l = l := by
  simp [byteSlice]

theorem flatten_decomp (f : ((Nat × Nat) × Obj) → List Nat)
    (L : List ((Nat × Nat) × Obj)) (i : Nat) (h : i < L.length) :
    (L.map f).flatten
      = ((L.take i).map f).flatten
        ++ (f (L.getD i ((0, 0), Obj.null)) ++ ((L.drop (i + 1)).map f).flatten) := by
  conv_lhs => rw [← List.take_append_drop i L]
  rw [List.map_append, List.flatten_append]
  congr 1
  have hdrop : L.drop i = L.getD i ((0, 0), Obj.null) :: L.drop (i + 1) := by
    rw [List.getD_eq_getElem _ _ h]
    exact List.drop_eq_getElem_cons h
  rw [hdrop, List.map_cons, List.flatten_cons]

theorem xlogF_spec : ∀ (L : List ((Nat × Nat) × Obj)) (c : Nat),
    (xlogF c L).length = (L.filter (fun p => !skipObj p.2)).length ∧
    ∀ i, i < (L.filter (fun p => !skipObj p.2)).length →
      (xlogF c L).getD i (0, XrefEntry.free)
        = (((L.filter (fun p => !skipObj p.2)).getD i ((0, 0), Obj.null)).1.1,
           XrefEntry.normal
             ((c + ((((L.filter (fun p => !skipObj p.2)).take i).map
                 (fun p => (renderIndirect p.1 p.2).length)).sum)) % 2 ^ 32)
             ((L.filter (fun p => !skipObj p.2)).getD i ((0, 0), Obj.null)).1.2) := by
  intro L
  induction L with
  | nil => intro c; simp [xlogF]
  | cons p rest ih =>
    intro c
    obtain ⟨oid, o⟩ := p
    by_cases hs : skipObj o
    · have hfil : ((oid, o) :: rest).filter (fun p => !skipObj p.2)
          = rest.filter (fun p => !skipObj p.2) := by
        simp [List.filter_cons, hs]
      have hx : xlogF c ((oid, o) :: rest) = xlogF c rest := by
        simp [xlogF, hs]
      rw [hfil, hx]
      exact ih c
    · have hfil : ((oid, o) :: rest).filter (fun p => !skipObj p.2)
          = (oid, o) :: rest.filter (fun p => !skipObj p.2) := by
        simp [List.filter_cons, hs]
      have hx : xlogF c ((oid, o) :: rest)
          = (oid.1, XrefEntry.normal (c % 2 ^ 32) oid.2)
            :: xlogF (c + (renderIndirect oid o).length) rest := by
        simp [xlogF, hs]
      rw [hfil, hx]
      obtain ⟨ihl, ihg⟩ := ih (c + (renderIndirect oid o).length)
      constructor
      · simp [ihl]
      · intro i hi
        cases i with
        | zero => simp
        | succ j =>
          simp only [List.length_cons] at hi
          have hj : j < (rest.filter (fun p => !skipObj p.2)).length := by omega
          have := ihg j hj
          simp only [List.getD_cons_succ, List.take_succ_cons, List.map_cons, List.sum_cons]
          rw [this]
          congr 2
          omega

theorem bodyBytes_length (doc : Doc) :
    (bodyBytes doc).length
      = ((doc.objects.filter (fun p => !skipObj p.2)).map
          (fun p => (renderIndirect p.1 p.2).length)).sum := by
  simp [bodyBytes, List.length_flatten, List.map_map]
  rfl

theorem offAt_le_startOff (doc : Doc) (i : Nat) : offAt doc i ≤ startOffOf doc := by
  unfold offAt startOffOf
  rw [bodyBytes_length]
  have h1 : (((doc.objects.filter (fun p => !skipObj p.2)).take i).map
      (fun p => (renderIndirect p.1 p.2).length))
      = (((doc.objects.filter (fun p => !skipObj p.2)).map
          (fun p => (renderIndirect p.1 p.2).length)).take i) := by
    rw [List.map_take]
  rw [h1]
  have := sum_take_le ((doc.objects.filter (fun p => !skipObj p.2)).map
    (fun p => (renderIndirect p.1 p.2).length)) i
  omega

/-- C1: during a save, the cross-reference index receives exactly one Normal
entry per emitted indirect object, in emission order, whose offset is the
cumulative byte count right before the object's `{id} {generation} obj`
header begins (the output at that offset indeed starts with those header
bytes) and whose generation is the object's generation; and the `startxref`
value in the footer is the byte offset at which the `xref` keyword starts
(the hypothesis bounds the output below 2^32 bytes, where the `u32` offset
truncation of the source is the identity). -/
theorem c1_save_offsets (doc : Doc) (h : (save doc).count < 2 ^ 32) : c1Concl doc := by
  obtain ⟨hout, hxlog, hxref, hcnt⟩ := save_shape doc
  obtain ⟨hlen, hget⟩ := xlogF_spec doc.objects (headerBytes doc).length
  have hofflt : ∀ i, offAt doc i < 2 ^ 32 := by
    intro i
    have h1 := offAt_le_startOff doc i
    have h2 : startOffOf doc ≤ (save doc).count := by
      rw [hcnt, hout]
      simp [startOffOf, List.length_append]
    omega
  refine ⟨?_, ?_, ?_, hout, ?_⟩
  · rw [hxlog, hlen]
  · intro i hi
    rw [hxlog, hget i hi]
    have : ((headerBytes doc).length
        + ((((doc.objects.filter (fun p => !skipObj p.2)).take i).map
            (fun p => (renderIndirect p.1 p.2).length)).sum)) = offAt doc i := rfl
    rw [this, Nat.mod_eq_of_lt (hofflt i)]
  · intro i hi
    set E : List ((Nat × Nat) × Obj) := doc.objects.filter (fun p => !skipObj p.2) with hE
    set q : (Nat × Nat) × Obj := E.getD i ((0, 0), Obj.null) with hq
    have hdecomp := flatten_decomp (fun p => renderIndirect p.1 p.2) E i hi
    rw [← hq] at hdecomp
    set FT : List Nat := ((E.take i).map (fun p => renderIndirect p.1 p.2)).flatten with hFT
    set FD : List Nat := ((E.drop (i + 1)).map (fun p => renderIndirect p.1 p.2)).flatten
      with hFD
    have hXlen : (headerBytes doc ++ FT).length = offAt doc i := by
      rw [hFT, hE]
      simp [offAt, List.length_append, List.length_flatten, List.map_map]
      rfl
    set Z : List Nat := renderObj q.2 ++ (objFooterBytes q.2 ++ (FD
        ++ (renderXref (finalXrefOf doc) ++ (trailerBytes doc ++ footerBytes doc)))) with hZ
    have hform : (save doc).out
        = (headerBytes doc ++ FT) ++ (objHeaderBytes q.1 q.2 ++ Z) := by
      rw [hout, show bodyBytes doc = FT ++ (renderIndirect q.1 q.2 ++ FD) from hdecomp, hZ]
      simp [renderIndirect, List.append_assoc]
    rw [hform, ← hXlen]
    have hembed := byteSlice_embed (headerBytes doc ++ FT) (objHeaderBytes q.1 q.2) Z
      0 (objHeaderBytes q.1 q.2).length (le_refl _)
    rw [Nat.add_zero] at hembed
    rw [hembed]
    exact byteSlice_full _
  · have hXlen2 : (headerBytes doc ++ bodyBytes doc).length = startOffOf doc := by
      simp [startOffOf]
    have hform2 : (save doc).out
        = (headerBytes doc ++ bodyBytes doc)
          ++ (ascii "xref"
            ++ ([10] ++ (((xrefSections (xGet (finalXrefOf doc))
                  (sortedKeys (finalXrefOf doc))).map renderSection).flatten
              ++ (trailerBytes doc ++ footerBytes doc)))) := by
      rw [hout]
      simp [renderXref, List.append_assoc]
    rw [hform2, ← hXlen2, show (4 : Nat) = (ascii "xref").length from rfl]
    have hembed2 := byteSlice_embed (headerBytes doc ++ bodyBytes doc) (ascii "xref")
      ([10] ++ (((xrefSections (xGet (finalXrefOf doc))
            (sortedKeys (finalXrefOf doc))).map renderSection).flatten
        ++ (trailerBytes doc ++ footerBytes doc)))
      0 (ascii "xref").length (le_refl _)
    rw [Nat.add_zero] at hembed2
    rw [hembed2]
    exact byteSlice_full _

theorem c1_witness : (save c1Doc).count < 2 ^ 32 ∧ c1Concl c1Doc :=
  ⟨by decide, c1_save_offsets c1Doc (by decide)⟩

/-! ### C9: save against a fallible sink -/

theorem replayWrites_spec : ∀ (W : List (List Nat)) (ok : Nat → Bool) (j : Nat),
    (replayWrites ok j W = .ok () ↔ ∀ i, i < W.length → ok (j + i) = true) ∧
    (∀ e, replayWrites ok j W = .error e →
      j ≤ e ∧ e < j + W.length ∧ ok e = false ∧ ∀ i, j ≤ i → i < e → ok i = true) := by
  intro W
  induction W with
  | nil =>
    intro ok j
    constructor
    · simp [replayWrites]
    · intro e he
      simp [replayWrites] at he
  | cons b rest ih =>
    intro ok j
    by_cases hj : ok j = true
    · have hstep : replayWrites ok j (b :: rest) = replayWrites ok (j + 1) rest := by
        simp [replayWrites, hj]
      obtain ⟨ih1, ih2⟩ := ih ok (j + 1)
      constructor
      · rw [hstep, ih1]
        constructor
        · intro hall i hi
          cases i with
          | zero => simpa using hj
          | succ n =>
            have := hall n (by simpa using hi)
            rw [show j + (n + 1) = j + 1 + n by omega]
            exact this
        · intro hall i hi
          have := hall (i + 1) (by simpa using hi)
          rw [show j + 1 + i = j + (i + 1) by omega]
          exact this
      · intro e he
        rw [hstep] at he
        obtain ⟨h1, h2, h3, h4⟩ := ih2 e he
        refine ⟨by omega, by simp; omega, h3, ?_⟩
        intro i hji hie
        by_cases hij : i = j
        · rw [hij]
          exact hj
        · exact h4 i (by omega) hie
    · have hstep : replayWrites ok j (b :: rest) = .error j := by
        simp [replayWrites, hj]
      constructor
      · rw [hstep]
        constructor
        · intro he
          exact absurd he (by simp)
        · intro hall
          have := hall 0 (by simp)
          simp at this
          exact absurd this (by simpa using hj)
      · intro e he
        rw [hstep] at he
        injection he with he
        subst he
        refine ⟨le_refl _, by simp, by simpa using hj, ?_⟩
        intro i h1 h2
        omega

/-- C9: a save fails iff some write to the sink fails, the first failing
write aborts the save immediately with no further write attempted and no
retry, and a save whose writes all succeed returns success. -/
theorem c9_io_error (doc : Doc) (ok : Nat → Bool) : c9Concl doc ok := by
  obtain ⟨h1, h2⟩ := replayWrites_spec (save doc).writes ok 0
  refine ⟨?_, ?_, ?_⟩
  · unfold saveReplay
    rw [h1]
    constructor
    · intro hall j hj
      have := hall j hj
      simpa using this
    · intro hall i hi
      have := hall i hi
      simpa using this
  · intro e he
    obtain ⟨g1, g2, g3, g4⟩ := h2 e he
    refine ⟨by omega, g3, fun j hj => g4 j (by omega) hj, ?_⟩
    unfold attemptedWrites
    rw [he]
  · intro he
    unfold attemptedWrites
    rw [he]

theorem c9_witness : c9Concl c1Doc c9Ok := c9_io_error c1Doc c9Ok
